import Mathlib

/-!
Shallow embedding of the TLS client data-flow adapter
(`src/src/data_flow/tls_data_flow.cc`, class `nekit::data_flow::TlsDataFlow`).

The adapter composes an opaque TLS engine (the "tunnel", consumed through the
interface of `crypto::TlsTunnel`), an inner transport flow (consumed through
the data-flow interface: `Connect`, `Read`, `Write`, a state machine with
`IsReading`/`IsWriting`), a runloop with a `Post` primitive, and shared
cancellation tokens (`utils::Cancelable`).

Modelling choices:
  * The tunnel is an opaque collaborator, so it is embedded as an abstract
    state type `τ` together with a record `TunnelModel τ` of the operations
    `TlsDataFlow` calls on it; theorems quantify over all tunnel models and
    counterexamples instantiate small concrete ones.
  * `utils::Cancelable` is a shared flag: tokens are identified by `Nat` ids
    allocated from the flow's `fresh` counter, and the set of canceled ids is
    a field of the state.  `Cancel` adds an id; every copy of a token shares
    its id, exactly as every copy of a `Cancelable` shares its flag.
  * User handlers are opaque continuations: each arming allocates a fresh
    handler id, and invoking a handler is recorded as an event in a trace.
    An event also records the value the corresponding handler slot had at the
    moment of the call (`slotAtInvoke`), which is observable to the handler
    in the source.  Invoking an empty `std::function` (a cleared slot) is
    recorded as `nullInvoke`.
  * The single-threaded runloop is a FIFO queue of posted closures; inner
    I/O completions are delivered by the environment at arbitrary points, as
    in the source, where they are scheduled by the inner flow.
  * Outstanding inner operations are kept in lists together with the
    `Cancelable` each continuation captured; delivering a completion pops the
    operation (the inner flow ends its own Read/Write state first) and runs
    the body of the corresponding lambda from the source.
  * `BOOST_ASSERT`/usage preconditions (no second concurrent read or write,
    no operation after `error_reported`, operations only in legal machine
    states) are environment guards: illegal user calls are not taken.
    Illegal `FlowStateMachine` transitions assert in the source; they are
    modelled as no-ops since no claim depends on behaviour past such an
    assertion.
-/

namespace TlsFlow

/-- Byte buffers (`utils::Buffer`) are modelled as lists of bytes. -/
abbrev Buffer := List Nat

/-- Error codes: the payload of a truthy `utils::Error`. -/
abbrev ECode := Nat

/-- Models `utils::NEKitErrorCode::GeneralError`, the general TLS error the
handshake driver reports on a tunnel failure. -/
def generalError : ECode := 1

/-- A cancellation token id (`utils::Cancelable`); the canceled set lives in
the flow state so that every copy of a token observes the same flag. -/
abbrev Token := Nat

/-- States of `FlowStateMachine`. -/
inductive FlowState
  | Init
  | Connecting
  | Established
  | Reading
  | Writing
  | ReadingWriting
  | Errored
deriving DecidableEq, Repr

namespace FlowState

/-- `ConnectBegin`; an illegal transition asserts in the source and is
modelled as a no-op. -/
def connectBegin : FlowState → FlowState
  | Init => Connecting
  | s => s

/-- `Connected`. -/
def connected : FlowState → FlowState
  | Connecting => Established
  | s => s

/-- `ReadBegin`. -/
def readBegin : FlowState → FlowState
  | Established => Reading
  | Writing => ReadingWriting
  | s => s

/-- `ReadEnd`. -/
def readEnd : FlowState → FlowState
  | Reading => Established
  | ReadingWriting => Writing
  | s => s

/-- `WriteBegin`. -/
def writeBegin : FlowState → FlowState
  | Established => Writing
  | Reading => ReadingWriting
  | s => s

/-- `WriteEnd`. -/
def writeEnd : FlowState → FlowState
  | Writing => Established
  | ReadingWriting => Reading
  | s => s

/-- `Errored`: terminal with respect to data operations. -/
def errored : FlowState → FlowState := fun _ => Errored

end FlowState

/-- Result of `crypto::TlsTunnel::HandShake`. -/
inductive HSAction
  | Success
  | WantIo
  | Error
deriving DecidableEq, Repr

/-- The interface of the opaque TLS engine (`crypto::TlsTunnel`) as consumed
by `TlsDataFlow`, over an abstract engine state `τ`.  `readCipherTextData`
returns `none` for an empty (falsy) buffer. -/
structure TunnelModel (τ : Type) where
  handShake : τ → HSAction × τ
  readCipherTextData : τ → Option Buffer × τ
  writeCipherTextData : Buffer → τ → τ
  hasPlainTextDataToRead : τ → Bool
  readPlainTextData : τ → Buffer × τ
  writePlainTextData : Buffer → τ → τ
  needCipherInput : τ → Bool
  finishWritingCipherData : τ → Bool
  errored : τ → Bool
  setDomain : Nat → τ → τ

/-- An outstanding inner-flow read: the token the completion lambda captured
by value, whether it was issued by the handshake driver or the steady-state
pump, and the capacity of the buffer handed to the inner flow (always 8192 in
the source). -/
structure ReadOp where
  cap : Token
  isHs : Bool
  size : Nat
deriving DecidableEq, Repr

/-- An outstanding inner-flow write: captured token, handshake/steady tag,
and the ciphertext payload handed to the inner flow. -/
structure WriteOp where
  cap : Token
  isHs : Bool
  payload : Buffer
deriving DecidableEq, Repr

/-- A closure posted to the runloop by `TryRead`/`TryWrite`: the delivery of
a user read (with the plaintext captured at post time) or of a user write
completion, each capturing the corresponding user cancelable by value. -/
inductive Task
  | readDelivery (buf : Buffer) (cap : Token)
  | writeDelivery (cap : Token)
deriving DecidableEq, Repr

/-- Observable events: an invocation of a user read / write / connect
handler (with the delivered buffer and error), or a call of an empty
`std::function`.  `slotAtInvoke` records the value the handler's slot field
had at the instant of the call. -/
inductive Ev
  | invRead (h : Nat) (buf : Buffer) (err : Option ECode) (slotAtInvoke : Option Nat)
  | invWrite (h : Nat) (err : Option ECode) (slotAtInvoke : Option Nat)
  | invConnect (h : Nat) (err : Option ECode) (slotAtInvoke : Option Nat)
  | nullInvoke
deriving DecidableEq, Repr

/-- The state of a `TlsDataFlow` together with its environment: the tunnel
state, the `FlowStateMachine`, the three user handler slots, the five
cancelable fields, the pending/reported error flags, the set of canceled
token ids, the fresh-id counter, the runloop queue, the outstanding inner
operations (the inner flow `IsReading`/`IsWriting` iff the corresponding
list is nonempty), and the trace of handler invocations. -/
structure Flow (τ : Type) where
  tunnel : τ
  sm : FlowState := .Init
  readHandler : Option Nat := none
  writeHandler : Option Nat := none
  connectHandler : Option Nat := none
  readCancelable : Token := 0
  writeCancelable : Token := 1
  connectCancelable : Token := 2
  nextReadCancelable : Token := 3
  nextWriteCancelable : Token := 4
  pendingError : Option ECode := none
  errorReported : Bool := false
  canceled : List Token := []
  fresh : Nat := 5
  posted : List Task := []
  readOps : List ReadOp := []
  writeOps : List WriteOp := []
  connectOp : Option Token := none
  events : List Ev := []
deriving DecidableEq, Repr

/-- A freshly constructed `TlsDataFlow` over tunnel state `t`. -/
def init {τ : Type} (t : τ) : Flow τ := { tunnel := t }

variable {τ : Type}

/-- `TlsDataFlow::ReadReportError` (lines 340 to 349): if a read handler is
registered, invoke it with an empty buffer and the error, then clear the
slot, and report delivery; the handler is called while the slot still holds
it. -/
def ReadReportError (s : Flow τ) (e : ECode) : Bool × Flow τ :=
  match s.readHandler with
  | some h =>
      (true, { s with
        events := s.events ++ [Ev.invRead h [] (some e) (some h)],
        readHandler := none })
  | none => (false, s)

/-- `TlsDataFlow::WriteReportError` (lines 351 to 360). -/
def WriteReportError (s : Flow τ) (e : ECode) : Bool × Flow τ :=
  match s.writeHandler with
  | some h =>
      (true, { s with
        events := s.events ++ [Ev.invWrite h (some e) (some h)],
        writeHandler := none })
  | none => (false, s)

/-- `TlsDataFlow::ReportError` (lines 332 to 338): try the preferred side,
then the other. -/
def ReportError (s : Flow τ) (e : ECode) (tryReadFirst : Bool) : Bool × Flow τ :=
  if tryReadFirst then
    match ReadReportError s e with
    | (true, s1) => (true, s1)
    | (false, s1) => WriteReportError s1 e
  else
    match WriteReportError s e with
    | (true, s1) => (true, s1)
    | (false, s1) => ReadReportError s1 e

/-- `TlsDataFlow::TryReadNextHop` (lines 276 to 301): do nothing if the
inner flow is reading; otherwise issue an inner read of capacity 8192 whose
continuation captures `read_cancelable_`, storing the returned token in
`next_read_cancelable_`. -/
def TryReadNextHop (s : Flow τ) : Flow τ :=
  if s.readOps.isEmpty then
    { s with
      readOps := s.readOps ++ [⟨s.readCancelable, false, 8192⟩],
      nextReadCancelable := s.fresh,
      fresh := s.fresh + 1 }
  else s

/-- `TlsDataFlow::TryWriteNextHop` (lines 303 to 330): do nothing if the
inner flow is writing or the tunnel has finished writing cipher data;
otherwise drain ciphertext from the tunnel and issue an inner write whose
continuation captures `write_cancelable_`, storing the returned token in
`next_write_cancelable_`. -/
def TryWriteNextHop (TM : TunnelModel τ) (s : Flow τ) : Flow τ :=
  if s.writeOps.isEmpty then
    if TM.finishWritingCipherData s.tunnel then s
    else
      let r := TM.readCipherTextData s.tunnel
      { s with
        tunnel := r.2,
        writeOps := s.writeOps ++ [⟨s.writeCancelable, false, r.1.getD []⟩],
        nextWriteCancelable := s.fresh,
        fresh := s.fresh + 1 }
  else s

/-- `TlsDataFlow::TryRead` (lines 222 to 253): with a user read handler and
plaintext available, post the delivery (capturing the plaintext and
`read_cancelable_` at post time) and issue an inner read if the tunnel needs
cipher input; with a handler and no plaintext, call `TryReadNextHop`
unconditionally; with no handler, call it only if the tunnel needs cipher
input. -/
def TryRead (TM : TunnelModel τ) (s : Flow τ) : Flow τ :=
  match s.readHandler with
  | some _ =>
      if TM.hasPlainTextDataToRead s.tunnel then
        let r := TM.readPlainTextData s.tunnel
        let s1 := { s with
          tunnel := r.2,
          posted := s.posted ++ [Task.readDelivery r.1 s.readCancelable] }
        if TM.needCipherInput s1.tunnel then TryReadNextHop s1 else s1
      else TryReadNextHop s
  | none =>
      if TM.needCipherInput s.tunnel then TryReadNextHop s else s

/-- `TlsDataFlow::TryWrite` (lines 255 to 274): if the tunnel finished
writing cipher data and a write handler is registered, post its completion
(capturing `write_cancelable_`); otherwise, if not finished, call
`TryWriteNextHop`. -/
def TryWrite (TM : TunnelModel τ) (s : Flow τ) : Flow τ :=
  if TM.finishWritingCipherData s.tunnel && s.writeHandler.isSome then
    { s with posted := s.posted ++ [Task.writeDelivery s.writeCancelable] }
  else
    if !TM.finishWritingCipherData s.tunnel then TryWriteNextHop TM s else s

/-- `TlsDataFlow::Process` (lines 206 to 220): return if an error was
already reported; deliver a pending error (latching `error_reported_` on
success) and return; otherwise pump `TryRead` then `TryWrite`. -/
def Process (TM : TunnelModel τ) (s : Flow τ) : Flow τ :=
  if s.errorReported then s
  else
    match s.pendingError with
    | some pe =>
        match ReportError s pe true with
        | (true, s1) => { s1 with errorReported := true }
        | (false, s1) => s1
    | none => TryWrite TM (TryRead TM s)

/-- Invoke the connect handler slot without clearing it (every invocation of
`connect_handler_` in the source reads the field directly). -/
def invokeConnect (s : Flow τ) (e : Option ECode) : Flow τ :=
  match s.connectHandler with
  | some h => { s with events := s.events ++ [Ev.invConnect h e (some h)] }
  | none => { s with events := s.events ++ [Ev.nullInvoke] }

/-- `TlsDataFlow::HandShake` (lines 132 to 204): drive the tunnel handshake.
On `Success` with remaining ciphertext, issue one inner write (continuation
captures `connect_cancelable_`; the returned token is stored in
`write_cancelable_`); on `Success` with empty ciphertext, mark `Connected`,
invoke the connect handler with success and clear it.  On `WantIo`, write
available ciphertext or else issue an inner read of capacity 8192 (returned
token stored in `read_cancelable_`).  On `Error`, mark `Errored` and invoke
the connect handler with the general error. -/
def HandShake (TM : TunnelModel τ) (s : Flow τ) : Flow τ :=
  match TM.handShake s.tunnel with
  | (HSAction.Success, t) =>
      match TM.readCipherTextData t with
      | (some b, t1) =>
          { s with
            tunnel := t1,
            writeOps := s.writeOps ++ [⟨s.connectCancelable, true, b⟩],
            writeCancelable := s.fresh,
            fresh := s.fresh + 1 }
      | (none, t1) =>
          let s1 := invokeConnect { s with tunnel := t1, sm := s.sm.connected } none
          { s1 with connectHandler := none }
  | (HSAction.WantIo, t) =>
      match TM.readCipherTextData t with
      | (some b, t1) =>
          { s with
            tunnel := t1,
            writeOps := s.writeOps ++ [⟨s.connectCancelable, true, b⟩],
            writeCancelable := s.fresh,
            fresh := s.fresh + 1 }
      | (none, t1) =>
          { s with
            tunnel := t1,
            readOps := s.readOps ++ [⟨s.connectCancelable, true, 8192⟩],
            readCancelable := s.fresh,
            fresh := s.fresh + 1 }
  | (HSAction.Error, t) =>
      invokeConnect { s with tunnel := t, sm := s.sm.errored } (some generalError)

/-- Body of the inner-connect completion lambda (lines 112 to 123): check
the captured `connect_cancelable_`; on error invoke the connect handler, on
success enter the handshake driver. -/
def OnConnectDone (TM : TunnelModel τ) (cap : Token) (e : Option ECode) (s : Flow τ) :
    Flow τ :=
  if s.canceled.contains cap then s
  else
    match e with
    | some err => invokeConnect s (some err)
    | none => HandShake TM s

/-- Body of the handshake inner-write completion lambdas (lines 139 to 151
and 163 to 175): check the captured `connect_cancelable_`; on error mark
`Errored` and invoke the connect handler; on success re-enter `HandShake`. -/
def OnHsWriteDone (TM : TunnelModel τ) (cap : Token) (e : Option ECode) (s : Flow τ) :
    Flow τ :=
  if s.canceled.contains cap then s
  else
    match e with
    | some err => invokeConnect { s with sm := s.sm.errored } (some err)
    | none => HandShake TM s

/-- Body of the handshake inner-read completion lambda (lines 179 to 194):
check the captured `connect_cancelable_`; on error mark `Errored` and invoke
the connect handler; on success feed the ciphertext into the tunnel and
re-enter `HandShake` (the debug-only assert on `tunnel_.Errored()` aborts in
debug and falls through in release; the release behaviour is modelled). -/
def OnHsReadDone (TM : TunnelModel τ) (cap : Token) (b : Buffer) (e : Option ECode)
    (s : Flow τ) : Flow τ :=
  if s.canceled.contains cap then s
  else
    match e with
    | some err => invokeConnect { s with sm := s.sm.errored } (some err)
    | none => HandShake TM { s with tunnel := TM.writeCipherTextData b s.tunnel }

/-- Body of the steady-state inner-read completion lambda (lines 283 to
300): check the captured `read_cancelable_`; on error report it, latching
`error_reported_` on delivery or storing `pending_error_` otherwise; on
success feed the ciphertext into the tunnel and call `Process`. -/
def OnStReadDone (TM : TunnelModel τ) (cap : Token) (b : Buffer) (e : Option ECode)
    (s : Flow τ) : Flow τ :=
  if s.canceled.contains cap then s
  else
    match e with
    | some err =>
        match ReportError s err true with
        | (true, s1) => { s1 with errorReported := true }
        | (false, s1) => { s1 with pendingError := some err }
    | none => Process TM { s with tunnel := TM.writeCipherTextData b s.tunnel }

/-- Body of the steady-state inner-write completion lambda (lines 314 to
329): check the captured `write_cancelable_`; on error report it (write side
first); on success call `Process`. -/
def OnStWriteDone (TM : TunnelModel τ) (cap : Token) (e : Option ECode) (s : Flow τ) :
    Flow τ :=
  if s.canceled.contains cap then s
  else
    match e with
    | some err =>
        match ReportError s err false with
        | (true, s1) => { s1 with errorReported := true }
        | (false, s1) => { s1 with pendingError := some err }
    | none => Process TM s

/-- `TlsDataFlow::Read` (lines 46 to 58): the hint buffer is ignored, a
fresh cancelable and handler are armed, `ReadBegin` is applied and `Process`
runs synchronously.  The fresh token is the state's `readCancelable`, the
fresh handler id is the state's `readHandler`. -/
def ReadCall (TM : TunnelModel τ) (s : Flow τ) : Flow τ :=
  Process TM { s with
    readCancelable := s.fresh,
    readHandler := some (s.fresh + 1),
    fresh := s.fresh + 2,
    sm := s.sm.readBegin }

/-- `TlsDataFlow::Write` (lines 60 to 74): arm a fresh cancelable and
handler, apply `WriteBegin`, queue the plaintext into the tunnel and run
`Process`. -/
def WriteCall (TM : TunnelModel τ) (buf : Buffer) (s : Flow τ) : Flow τ :=
  Process TM { s with
    writeCancelable := s.fresh,
    writeHandler := some (s.fresh + 1),
    fresh := s.fresh + 2,
    sm := s.sm.writeBegin,
    tunnel := TM.writePlainTextData buf s.tunnel }

/-- `TlsDataFlow::Connect` (lines 103 to 126): arm a fresh connect
cancelable and handler, set the SNI domain, apply `ConnectBegin` and issue
the inner connect, whose continuation captures `connect_cancelable_`. -/
def ConnectCall (TM : TunnelModel τ) (host : Nat) (s : Flow τ) : Flow τ :=
  { s with
    connectCancelable := s.fresh,
    connectHandler := some (s.fresh + 1),
    fresh := s.fresh + 2,
    tunnel := TM.setDomain host s.tunnel,
    sm := s.sm.connectBegin,
    connectOp := some s.fresh }

/-- `TlsDataFlow::CloseWrite` (lines 76 to 79): the handler is ignored and
the current `write_cancelable_` is returned; no state changes. -/
def CloseWriteCall (s : Flow τ) (_handlerId : Nat) : Token × Flow τ :=
  (s.writeCancelable, s)

/-- `TlsDataFlow::~TlsDataFlow` (lines 38 to 44): cancel all five
cancelables. -/
def Destruct (s : Flow τ) : Flow τ :=
  { s with canceled :=
      s.readCancelable :: s.writeCancelable :: s.connectCancelable ::
      s.nextReadCancelable :: s.nextWriteCancelable :: s.canceled }

/-- Run the closure at the head of the runloop queue (the bodies of the two
`Post` lambdas in `TryRead`, lines 225 to 236, and `TryWrite`, lines 257 to
267): check the captured cancelable, apply `ReadEnd`/`WriteEnd`, copy the
slot, clear it, and invoke the copy — so the slot is cleared before the call
and `slotAtInvoke` is `none`; a cleared slot yields a `nullInvoke`. -/
def RunTask (s : Flow τ) : Flow τ :=
  match s.posted with
  | [] => s
  | Task.readDelivery b cap :: rest =>
      let s0 := { s with posted := rest }
      if s0.canceled.contains cap then s0
      else
        let s1 := { s0 with sm := s0.sm.readEnd }
        match s1.readHandler with
        | some h =>
            { s1 with
              readHandler := none,
              events := s1.events ++ [Ev.invRead h b none none] }
        | none => { s1 with events := s1.events ++ [Ev.nullInvoke] }
  | Task.writeDelivery cap :: rest =>
      let s0 := { s with posted := rest }
      if s0.canceled.contains cap then s0
      else
        let s1 := { s0 with sm := s0.sm.writeEnd }
        match s1.writeHandler with
        | some h =>
            { s1 with
              writeHandler := none,
              events := s1.events ++ [Ev.invWrite h none none] }
        | none => { s1 with events := s1.events ++ [Ev.nullInvoke] }

/-- Environment actions: user calls (guarded by the usage contract), a
cancel of a token, one runloop turn, and deliveries of inner-flow
completions (the environment picks which outstanding operation completes and
with what result). -/
inductive Action
  | uConnect (host : Nat)
  | uRead
  | uWrite (buf : Buffer)
  | uCloseWrite
  | uCancel (t : Token)
  | runTask
  | completeConnect (e : Option ECode)
  | completeRead (i : Nat) (b : Buffer) (e : Option ECode)
  | completeWrite (i : Nat) (e : Option ECode)
deriving DecidableEq, Repr

/-- Usage guard for `Read`: no reported error (`BOOST_ASSERT` line 49), at
most one outstanding user read, and a legal `ReadBegin`. -/
def readLegal (s : Flow τ) : Bool :=
  !s.errorReported && s.readHandler.isNone &&
    (s.sm == .Established || s.sm == .Writing)

/-- Usage guard for `Write` (`BOOST_ASSERT` line 62). -/
def writeLegal (s : Flow τ) : Bool :=
  !s.errorReported && s.writeHandler.isNone &&
    (s.sm == .Established || s.sm == .Reading)

/-- One step of the system: a user call, a cancel, a runloop turn, or an
inner completion.  Disabled actions (failed guards, missing operations,
over-long completion buffers) leave the state unchanged. -/
def exec1 (TM : TunnelModel τ) (a : Action) (s : Flow τ) : Flow τ :=
  match a with
  | .uConnect host => if s.sm == .Init then ConnectCall TM host s else s
  | .uRead => if readLegal s then ReadCall TM s else s
  | .uWrite buf => if writeLegal s then WriteCall TM buf s else s
  | .uCloseWrite => s
  | .uCancel t => { s with canceled := t :: s.canceled }
  | .runTask => RunTask s
  | .completeConnect e =>
      match s.connectOp with
      | some cap => OnConnectDone TM cap e { s with connectOp := none }
      | none => s
  | .completeRead i b e =>
      match s.readOps.get? i with
      | some op =>
          if e.isNone && decide (op.size < b.length) then s
          else
            let s0 := { s with readOps := s.readOps.eraseIdx i }
            if op.isHs then OnHsReadDone TM op.cap b e s0
            else OnStReadDone TM op.cap b e s0
      | none => s
  | .completeWrite i e =>
      match s.writeOps.get? i with
      | some op =>
          let s0 := { s with writeOps := s.writeOps.eraseIdx i }
          if op.isHs then OnHsWriteDone TM op.cap e s0
          else OnStWriteDone TM op.cap e s0
      | none => s

/-- Run a list of actions from a state. -/
def runFrom (TM : TunnelModel τ) (s : Flow τ) : List Action → Flow τ
  | [] => s
  | a :: as => runFrom TM (exec1 TM a s) as

/-- Run a list of actions from a freshly constructed flow. -/
def run (TM : TunnelModel τ) (t : τ) (acts : List Action) : Flow τ :=
  runFrom TM (init t) acts

/-- A concrete tunnel model with trivial state: the handshake succeeds at
once with no ciphertext to flush, no plaintext is ever produced, the engine
always wants cipher input and never finishes writing cipher data. -/
def unitTM : TunnelModel Unit where
  handShake _ := (HSAction.Success, ())
  readCipherTextData _ := (none, ())
  writeCipherTextData _ _ := ()
  hasPlainTextDataToRead _ := false
  readPlainTextData _ := ([], ())
  writePlainTextData _ _ := ()
  needCipherInput _ := true
  finishWritingCipherData _ := false
  errored _ := false
  setDomain _ _ := ()

/-- A concrete tunnel model whose state is the queue of decrypted plaintext
buffers: feeding any ciphertext yields the two plaintext buffers `[1]` and
`[2]`, read one buffer at a time; the engine always wants cipher input and
has no cipher data of its own to write. -/
def listTM : TunnelModel (List Buffer) where
  handShake t := (HSAction.Success, t)
  readCipherTextData t := (none, t)
  writeCipherTextData _ _ := [[1], [2]]
  hasPlainTextDataToRead t := !t.isEmpty
  readPlainTextData t :=
    match t with
    | [] => ([], [])
    | b :: r => (b, r)
  writePlainTextData _ t := t
  needCipherInput _ := true
  finishWritingCipherData _ := true
  errored _ := false
  setDomain _ t := t

/-- A concrete tunnel model that is fully quiescent after the immediate
handshake: no plaintext, no need for cipher input, writing always finished. -/
def quietTM : TunnelModel Unit where
  handShake _ := (HSAction.Success, ())
  readCipherTextData _ := (none, ())
  writeCipherTextData _ _ := ()
  hasPlainTextDataToRead _ := false
  readPlainTextData _ := ([], ())
  writePlainTextData _ _ := ()
  needCipherInput _ := false
  finishWritingCipherData _ := true
  errored _ := false
  setDomain _ _ := ()

/-- Trace: connect and complete the trivial handshake, arm a user write
(token 7, handler 8; `Process` issues an inner read capturing the initial
`read_cancelable_` 0 and an inner write capturing token 7), cancel token 7,
then fail the outstanding inner read. -/
def cexActs1 : List Action :=
  [.uConnect 0, .completeConnect none, .uWrite [42], .uCancel 7,
   .completeRead 0 [] (some 7)]

/-- Trace: connect and complete the handshake, arm a user read (handler 8)
and a user write (handler 12), then fail the outstanding inner read and the
outstanding inner write in turn. -/
def cexActs3 : List Action :=
  [.uConnect 0, .completeConnect none, .uRead, .uWrite [1],
   .completeRead 0 [] (some 3), .completeWrite 0 (some 4)]

/-- Same trace as `cexActs1`, used to exhibit the order of handler
invocation and slot clearing in the error-delivery path. -/
def cexActs4 : List Action :=
  [.uConnect 0, .completeConnect none, .uWrite [42], .uCancel 7,
   .completeRead 0 [] (some 7)]

/-- Trace: connect and complete the handshake against the quiescent tunnel,
then arm a user read. -/
def cexActs6 : List Action := [.uConnect 0, .completeConnect none, .uRead]

/-- Trace: connect and complete the handshake, arm a user read, complete the
inner read with ciphertext (producing two plaintext buffers, one of which is
posted and delivered), then fail the follow-up inner read while no handler
is armed, leaving `pending_error_` set and plaintext still buffered. -/
def cexActs7 : List Action :=
  [.uConnect 0, .completeConnect none, .uRead, .completeRead 0 [9] none,
   .runTask, .completeRead 0 [] (some 5)]

/-- Number of invocations of read handler `i` in a trace. -/
def countRead (i : Nat) (es : List Ev) : Nat :=
  (es.filter fun e => match e with
    | Ev.invRead h _ _ _ => h == i
    | _ => false).length

/-- Number of invocations of write handler `i` in a trace. -/
def countWrite (i : Nat) (es : List Ev) : Nat :=
  (es.filter fun e => match e with
    | Ev.invWrite h _ _ => h == i
    | _ => false).length

/-- Number of connect-handler invocations in a trace (a flow arms a connect
handler at most once). -/
def countConnect (es : List Ev) : Nat :=
  (es.filter fun e => match e with
    | Ev.invConnect _ _ _ => true
    | _ => false).length

/-- The handler id carried by an event, if any. -/
def evId : Ev → Option Nat
  | Ev.invRead h _ _ _ => some h
  | Ev.invWrite h _ _ => some h
  | Ev.invConnect h _ _ => some h
  | Ev.nullInvoke => none

/-- Shape of an invocation event with respect to slot clearing: successful
read/write deliveries (which go through `Post`) have the slot cleared at the
moment of the call, while error deliveries and every connect-handler
invocation happen with the handler still in its slot. -/
def shapeOK : Ev → Prop
  | Ev.invRead _ _ none sl => sl = none
  | Ev.invRead h _ (some _) sl => sl = some h
  | Ev.invWrite _ none sl => sl = none
  | Ev.invWrite h (some _) sl => sl = some h
  | Ev.invConnect h _ sl => sl = some h
  | Ev.nullInvoke => True

/-- Number of outstanding handshake-phase inner operations (including the
inner connect). -/
def hsOps (s : Flow τ) : Nat :=
  (s.readOps.filter (fun op => op.isHs)).length +
    (s.writeOps.filter (fun op => op.isHs)).length +
    (if s.connectOp.isSome then 1 else 0)

/-- The state after `ReadReportError` delivers error `e` to read handler
`h`. -/
def readDelivered (s : Flow τ) (h : Nat) (e : ECode) : Flow τ :=
  { s with
    events := s.events ++ [Ev.invRead h [] (some e) (some h)],
    readHandler := none }

/-- The state after `WriteReportError` delivers error `e` to write handler
`h`. -/
def writeDelivered (s : Flow τ) (h : Nat) (e : ECode) : Flow τ :=
  { s with
    events := s.events ++ [Ev.invWrite h (some e) (some h)],
    writeHandler := none }

/-- A concrete flow state with a read handler armed, used to instantiate
universally quantified theorems. -/
def wfR : Flow Unit := { init () with readHandler := some 3 }

/-- A concrete established flow state with a pending error, used to
instantiate universally quantified theorems. -/
def wfP : Flow Unit :=
  { init () with pendingError := some 9, sm := FlowState.Established }

/-- A concrete flow state whose canceled set contains token 0, used to
instantiate universally quantified theorems. -/
def wfC : Flow Unit := { init () with canceled := [0] }

/-- A concrete connecting flow state with a connect handler armed, used to
instantiate universally quantified theorems. -/
def wfH : Flow Unit :=
  { init () with connectHandler := some 3, sm := FlowState.Connecting }

/-- A concrete flow state with a posted read delivery for a canceled token,
used to instantiate universally quantified theorems. -/
def wfT : Flow Unit :=
  { init () with
      posted := [Task.readDelivery [7] 0, Task.writeDelivery 1],
      canceled := [0, 1] }

/-- A concrete tunnel model whose handshake succeeds with one ciphertext
buffer still to flush. -/
def cipherTM : TunnelModel Unit where
  handShake _ := (HSAction.Success, ())
  readCipherTextData _ := (some [1], ())
  writeCipherTextData _ _ := ()
  hasPlainTextDataToRead _ := false
  readPlainTextData _ := ([], ())
  writePlainTextData _ _ := ()
  needCipherInput _ := true
  finishWritingCipherData _ := false
  errored _ := false
  setDomain _ _ := ()

/-- A concrete tunnel model whose handshake wants I/O with no ciphertext to
flush. -/
def wantIoTM : TunnelModel Unit where
  handShake _ := (HSAction.WantIo, ())
  readCipherTextData _ := (none, ())
  writeCipherTextData _ _ := ()
  hasPlainTextDataToRead _ := false
  readPlainTextData _ := ([], ())
  writePlainTextData _ _ := ()
  needCipherInput _ := true
  finishWritingCipherData _ := false
  errored _ := false
  setDomain _ _ := ()

/-- A concrete tunnel model in permanent failure: `Errored` holds and the
handshake reports `Error`. -/
def errTM : TunnelModel Unit where
  handShake _ := (HSAction.Error, ())
  readCipherTextData _ := (none, ())
  writeCipherTextData _ _ := ()
  hasPlainTextDataToRead _ := false
  readPlainTextData _ := ([], ())
  writePlainTextData _ _ := ()
  needCipherInput _ := true
  finishWritingCipherData _ := false
  errored _ := true
  setDomain _ _ := ()

/-- A concrete flow state with one outstanding steady inner read of
capacity 2, used to instantiate universally quantified theorems. -/
def wfO : Flow Unit := { init () with readOps := [⟨0, false, 2⟩] }

/-- A concrete flow state over the list tunnel with plaintext buffered, used
to instantiate universally quantified theorems. -/
def wfL : Flow (List Buffer) := init [[1]]

/-- A concrete flow state with a posted read delivery for an active token
and an armed read handler, used to instantiate universally quantified
theorems. -/
def wfD : Flow Unit :=
  { init () with posted := [Task.readDelivery [7] 9], readHandler := some 3 }

/-- A concrete flow state with `error_reported_` latched, used to
instantiate universally quantified theorems. -/
def wfE : Flow Unit := { init () with errorReported := true }

/-- A concrete flow state with one outstanding steady inner write, used to
instantiate universally quantified theorems. -/
def wfW : Flow Unit := { init () with writeOps := [⟨0, false, []⟩] }

/-- Reachability invariant of the flow: handler ids are below the fresh
counter, an armed handler has not yet been invoked, each handler is invoked
at most once, handshake-phase operations are single and confined to the
`Connecting` state, and at most one inner read and one inner write are
outstanding. -/
structure GoodState (s : Flow τ) : Prop where
  evIdsLt : ∀ e ∈ s.events, ∀ i, evId e = some i → i < s.fresh
  readLt : ∀ i, s.readHandler = some i → i < s.fresh
  writeLt : ∀ i, s.writeHandler = some i → i < s.fresh
  connLt : ∀ i, s.connectHandler = some i → i < s.fresh
  readOnce : ∀ i, s.readHandler = some i → countRead i s.events = 0
  writeOnce : ∀ i, s.writeHandler = some i → countWrite i s.events = 0
  connCount : countConnect s.events ≤ 1
  connQuiescent : 1 ≤ countConnect s.events → hsOps s = 0
  hsLe : hsOps s ≤ 1
  hsConnecting : 0 < hsOps s → s.sm = FlowState.Connecting
  initClean : s.sm = FlowState.Init →
    s.events = [] ∧ s.readOps = [] ∧ s.writeOps = [] ∧ s.connectOp = none ∧
    s.posted = [] ∧ s.readHandler = none ∧ s.writeHandler = none ∧
    s.connectHandler = none
  hsClean : s.sm = FlowState.Connecting →
    s.posted = [] ∧ s.readHandler = none ∧ s.writeHandler = none ∧
    (∀ op ∈ s.readOps, op.isHs = true) ∧ (∀ op ∈ s.writeOps, op.isHs = true)
  readsLe : s.readOps.length ≤ 1
  writesLe : s.writeOps.length ≤ 1
  countReadLe : ∀ i, countRead i s.events ≤ 1
  countWriteLe : ∀ i, countWrite i s.events ≤ 1

/-- C1 counterexample: a write handler (id 8) is armed with cancelable
token 7; token 7 is canceled before any delivery (after four actions the
token is canceled and the handler has not been invoked); the subsequent
inner-read error is nevertheless delivered to that handler once, because
`ReportError`/`WriteReportError` never consult the user cancelables.  This
refutes the clause that a canceled operation's handler is invoked zero
times. -/
theorem c1_counterexample :
    (run unitTM () (cexActs1.take 3)).writeHandler = some 8 ∧
    (run unitTM () (cexActs1.take 3)).writeCancelable = 7 ∧
    (run unitTM () (cexActs1.take 4)).canceled.contains 7 = true ∧
    countWrite 8 (run unitTM () (cexActs1.take 4)).events = 0 ∧
    countWrite 8 (run unitTM () cexActs1).events = 1 := by
  decide

/-- C3 counterexample: with a user read and a user write armed and two
inner operations outstanding, the inner read fails and its error is
surfaced to the read handler, latching `error_reported_`; the inner write
then fails and, because the completion callbacks never consult
`error_reported_`, a second error is surfaced to the write handler — two
errors delivered over the lifetime, and a user handler invoked after
`error_reported` was set. -/
theorem c3_counterexample :
    (run unitTM () (cexActs3.take 5)).errorReported = true ∧
    (run unitTM () (cexActs3.take 5)).events =
      [Ev.invConnect 6 none (some 6), Ev.invRead 8 [] (some 3) (some 8)] ∧
    (run unitTM () cexActs3).events =
      [Ev.invConnect 6 none (some 6), Ev.invRead 8 [] (some 3) (some 8),
       Ev.invWrite 12 (some 4) (some 12)] := by
  decide

/-- C4 counterexample: in the error-delivery path (`WriteReportError`,
reached through `ReportError` from the inner-read completion) the handler is
invoked while its slot still holds it (`slotAtInvoke = some 8`), and the
connect handler in `HandShake`'s success path is likewise invoked before the
slot is cleared (`slotAtInvoke = some 6`) — so the slot is not cleared
before the handler is called on every delivery path. -/
theorem c4_counterexample :
    Ev.invWrite 8 (some 7) (some 8) ∈ (run unitTM () cexActs4).events ∧
    Ev.invConnect 6 none (some 6) ∈ (run unitTM () cexActs4).events := by
  decide

/-- C6 counterexample: against a tunnel that never needs cipher input and
has no plaintext, arming a user read issues an inner read anyway — `TryRead`
calls `TryReadNextHop` unconditionally when a handler is registered and no
plaintext is available, not only when the tunnel needs cipher input. -/
theorem c6_counterexample :
    quietTM.needCipherInput () = false ∧
    quietTM.hasPlainTextDataToRead () = false ∧
    (run quietTM () (cexActs6.take 2)).readOps = [] ∧
    (run quietTM () (cexActs6.take 2)).readHandler = none ∧
    (run quietTM () cexActs6).readHandler = some 8 ∧
    (run quietTM () cexActs6).readOps =
      [{ cap := 7, isHs := false, size := 8192 }] := by
  decide

/-- C7 counterexample: with `pending_error_` set and plaintext still
buffered in the tunnel, a user `Read` invokes the (just armed) read handler
inline, synchronously within the `Read` call, instead of deferring through
`Post` — the runloop queue stays empty and the invocation event is emitted
by the `Read` step itself. -/
theorem c7_counterexample :
    listTM.hasPlainTextDataToRead (run listTM [] cexActs7).tunnel = true ∧
    (run listTM [] cexActs7).pendingError = some 5 ∧
    (run listTM [] cexActs7).posted = [] ∧
    (exec1 listTM Action.uRead (run listTM [] cexActs7)).events =
      (run listTM [] cexActs7).events ++
        [Ev.invRead 12 [] (some 5) (some 12)] ∧
    (exec1 listTM Action.uRead (run listTM [] cexActs7)).posted = [] := by
  decide

/-- C9: `CloseWrite` is a no-op placeholder — for every state and handler it
never invokes the handler, changes no flow state, and returns the current
write cancelable. -/
theorem c9_close_write_noop {τ : Type} (s : Flow τ) (h : Nat) :
    CloseWriteCall s h = (s.writeCancelable, s) ∧
    ∀ TM : TunnelModel τ, exec1 TM Action.uCloseWrite s = s :=
  ⟨rfl, fun _ => rfl⟩

/-- C2: `ReportError(err, try_read_first)` first tries the preferred side —
invoking its handler (empty buffer and error for read, error for write) and
clearing the slot, returning delivered; if the preferred side is empty it
tries the other side under the same rule; with neither handler registered it
returns undelivered and the inner-completion caller stores the error in
`pending_error`, which the next user `Read` or `Write` surfaces through
`Process`. -/
theorem c2_report_error_policy {τ : Type} (TM : TunnelModel τ) (s : Flow τ)
    (e : ECode) (cap : Token) (b : Buffer) (h pe : Nat) :
    (s.readHandler = some h →
      ReportError s e true = (true, readDelivered s h e)) ∧
    (s.writeHandler = some h →
      ReportError s e false = (true, writeDelivered s h e)) ∧
    (s.readHandler = none → s.writeHandler = some h →
      ReportError s e true = (true, writeDelivered s h e)) ∧
    (s.writeHandler = none → s.readHandler = some h →
      ReportError s e false = (true, readDelivered s h e)) ∧
    (s.readHandler = none → s.writeHandler = none →
      ∀ pref, ReportError s e pref = (false, s)) ∧
    (s.readHandler = none → s.writeHandler = none →
      s.canceled.contains cap = false →
      OnStReadDone TM cap b (some e) s = { s with pendingError := some e }) ∧
    (s.pendingError = some pe → readLegal s = true →
      (ReadCall TM s).events =
        s.events ++ [Ev.invRead (s.fresh + 1) [] (some pe) (some (s.fresh + 1))] ∧
      (ReadCall TM s).errorReported = true) ∧
    (s.pendingError = some pe → writeLegal s = true →
      (WriteCall TM b s).errorReported = true) ∧
    (s.pendingError = some pe → writeLegal s = true → s.readHandler = none →
      (WriteCall TM b s).events =
        s.events ++ [Ev.invWrite (s.fresh + 1) (some pe) (some (s.fresh + 1))]) := by
  refine ⟨?_, ?_, ?_, ?_, ?_, ?_, ?_, ?_, ?_⟩
  · intro hr
    simp [ReportError, ReadReportError, hr, readDelivered]
  · intro hw
    simp [ReportError, WriteReportError, hw, writeDelivered]
  · intro hr hw
    simp [ReportError, ReadReportError, WriteReportError, hr, hw, writeDelivered]
  · intro hw hr
    simp [ReportError, ReadReportError, WriteReportError, hr, hw, readDelivered]
  · intro hr hw pref
    cases pref <;>
      simp [ReportError, ReadReportError, WriteReportError, hr, hw]
  · intro hr hw hc
    have hc2 : cap ∉ s.canceled := by simpa using hc
    simp [OnStReadDone, hc2, ReportError, ReadReportError, WriteReportError, hr, hw]
  · intro hp hl
    have hrep : s.errorReported = false := by
      simp [readLegal] at hl
      exact hl.1.1
    simp [ReadCall, Process, hrep, hp, ReportError, ReadReportError]
  · intro hp hl
    have hrep : s.errorReported = false := by
      simp [writeLegal] at hl
      exact hl.1.1
    cases hr : s.readHandler with
    | some h0 =>
        simp [WriteCall, Process, hrep, hp, ReportError, ReadReportError, hr]
    | none =>
        simp [WriteCall, Process, hrep, hp, ReportError, ReadReportError,
          WriteReportError, hr]
  · intro hp hl hr
    have hrep : s.errorReported = false := by
      simp [writeLegal] at hl
      exact hl.1.1
    simp [WriteCall, Process, hrep, hp, ReportError, ReadReportError,
      WriteReportError, hr]

/-- Characterization of `TryReadNextHop`: either the inner flow is reading
and nothing happens, or one steady inner read capturing `read_cancelable_`
is issued. -/
theorem tryReadNextHop_char {τ : Type} (s : Flow τ) :
    TryReadNextHop s = s ∨
    (s.readOps = [] ∧
      TryReadNextHop s =
        { s with
          readOps := [⟨s.readCancelable, false, 8192⟩],
          nextReadCancelable := s.fresh,
          fresh := s.fresh + 1 }) := by
  by_cases h : s.readOps.isEmpty
  · right
    have h0 : s.readOps = [] := by simpa using h
    refine ⟨h0, ?_⟩
    simp [TryReadNextHop, h, h0]
  · left
    simp [TryReadNextHop, h]

/-- Characterization of `TryWriteNextHop`. -/
theorem tryWriteNextHop_char {τ : Type} (TM : TunnelModel τ) (s : Flow τ) :
    TryWriteNextHop TM s = s ∨
    (s.writeOps = [] ∧ TM.finishWritingCipherData s.tunnel = false ∧
      TryWriteNextHop TM s =
        { s with
          tunnel := (TM.readCipherTextData s.tunnel).2,
          writeOps :=
            [⟨s.writeCancelable, false, (TM.readCipherTextData s.tunnel).1.getD []⟩],
          nextWriteCancelable := s.fresh,
          fresh := s.fresh + 1 }) := by
  by_cases h : s.writeOps.isEmpty
  · by_cases hf : TM.finishWritingCipherData s.tunnel
    · left
      simp [TryWriteNextHop, h, hf]
    · right
      have h0 : s.writeOps = [] := by simpa using h
      refine ⟨h0, by simpa using hf, ?_⟩
      simp [TryWriteNextHop, h, hf, h0]
  · left
    simp [TryWriteNextHop, h]

/-- Characterization of `TryRead`. -/
theorem tryRead_char {τ : Type} (TM : TunnelModel τ) (s : Flow τ) :
    TryRead TM s = s ∨
    TryRead TM s = TryReadNextHop s ∨
    (∃ h, s.readHandler = some h ∧
      TM.hasPlainTextDataToRead s.tunnel = true ∧
      (TryRead TM s =
        { s with
          tunnel := (TM.readPlainTextData s.tunnel).2,
          posted := s.posted ++
            [Task.readDelivery (TM.readPlainTextData s.tunnel).1 s.readCancelable] } ∨
       TryRead TM s = TryReadNextHop
        { s with
          tunnel := (TM.readPlainTextData s.tunnel).2,
          posted := s.posted ++
            [Task.readDelivery (TM.readPlainTextData s.tunnel).1 s.readCancelable] })) := by
  cases hr : s.readHandler with
  | none =>
      by_cases hn : TM.needCipherInput s.tunnel
      · right; left
        simp [TryRead, hr, hn]
      · left
        simp [TryRead, hr, hn]
  | some h =>
      by_cases hp : TM.hasPlainTextDataToRead s.tunnel
      · right; right
        refine ⟨h, rfl, hp, ?_⟩
        by_cases hn : TM.needCipherInput (TM.readPlainTextData s.tunnel).2
        · right
          simp [TryRead, hr, hp, hn]
        · left
          simp [TryRead, hr, hp, hn]
      · right; left
        simp [TryRead, hr, hp]

/-- Characterization of `TryWrite`. -/
theorem tryWrite_char {τ : Type} (TM : TunnelModel τ) (s : Flow τ) :
    TryWrite TM s = s ∨
    TryWrite TM s = TryWriteNextHop TM s ∨
    (TM.finishWritingCipherData s.tunnel = true ∧ s.writeHandler.isSome = true ∧
      TryWrite TM s =
        { s with posted := s.posted ++ [Task.writeDelivery s.writeCancelable] }) := by
  by_cases hf : TM.finishWritingCipherData s.tunnel
  · by_cases hw : s.writeHandler.isSome
    · right; right
      refine ⟨hf, hw, ?_⟩
      simp [TryWrite, hf, hw]
    · left
      simp [TryWrite, hf, hw]
  · right; left
    simp [TryWrite, hf]

/-- Characterization of `ReportError`: undelivered with both slots empty, or
delivered to the read side, or delivered to the write side. -/
theorem reportError_char {τ : Type} (s : Flow τ) (e : ECode) (p : Bool) :
    (s.readHandler = none ∧ s.writeHandler = none ∧
      ReportError s e p = (false, s)) ∨
    (∃ h, s.readHandler = some h ∧ ReportError s e p = (true, readDelivered s h e)) ∨
    (∃ h, s.writeHandler = some h ∧
      ReportError s e p = (true, writeDelivered s h e)) := by
  cases hr : s.readHandler with
  | some h =>
      cases p with
      | true =>
          right; left
          exact ⟨h, rfl, by simp [ReportError, ReadReportError, hr, readDelivered]⟩
      | false =>
          cases hw : s.writeHandler with
          | some h2 =>
              right; right
              exact ⟨h2, rfl,
                by simp [ReportError, ReadReportError, WriteReportError, hr, hw,
                  writeDelivered]⟩
          | none =>
              right; left
              exact ⟨h, rfl,
                by simp [ReportError, ReadReportError, WriteReportError, hr, hw,
                  readDelivered]⟩
  | none =>
      cases hw : s.writeHandler with
      | some h2 =>
          right; right
          exact ⟨h2, rfl,
            by cases p <;>
              simp [ReportError, ReadReportError, WriteReportError, hr, hw,
                writeDelivered]⟩
      | none =>
          left
          exact ⟨rfl, rfl,
            by cases p <;>
              simp [ReportError, ReadReportError, WriteReportError, hr, hw]⟩

/-- Characterization of `Process`. -/
theorem process_char {τ : Type} (TM : TunnelModel τ) (s : Flow τ) :
    Process TM s = s ∨
    (s.errorReported = false ∧ s.pendingError = none ∧
      Process TM s = TryWrite TM (TryRead TM s)) ∨
    (∃ pe h, s.errorReported = false ∧ s.pendingError = some pe ∧
      s.readHandler = some h ∧
      Process TM s = { readDelivered s h pe with errorReported := true }) ∨
    (∃ pe h, s.errorReported = false ∧ s.pendingError = some pe ∧
      s.writeHandler = some h ∧
      Process TM s = { writeDelivered s h pe with errorReported := true }) := by
  by_cases he : s.errorReported
  · left
    simp [Process, he]
  · cases hp : s.pendingError with
    | none =>
        right; left
        exact ⟨by simpa using he, rfl, by simp [Process, he, hp]⟩
    | some pe =>
        rcases reportError_char s pe true with ⟨hr, hw, hrep⟩ | ⟨h, hr, hrep⟩ | ⟨h, hw, hrep⟩
        · left
          simp [Process, he, hp, hrep]
        · right; right; left
          exact ⟨pe, h, by simpa using he, rfl, hr, by simp [Process, he, hp, hrep]⟩
        · right; right; right
          exact ⟨pe, h, by simpa using he, rfl, hw, by simp [Process, he, hp, hrep]⟩

/-- Characterization of `invokeConnect`. -/
theorem invokeConnect_char {τ : Type} (s : Flow τ) (e : Option ECode) :
    (∃ h, s.connectHandler = some h ∧
      invokeConnect s e = { s with events := s.events ++ [Ev.invConnect h e (some h)] }) ∨
    (s.connectHandler = none ∧
      invokeConnect s e = { s with events := s.events ++ [Ev.nullInvoke] }) := by
  cases hc : s.connectHandler with
  | some h => exact Or.inl ⟨h, rfl, by simp [invokeConnect, hc]⟩
  | none => exact Or.inr ⟨rfl, by simp [invokeConnect, hc]⟩

/-- Characterization of `HandShake`: issue a handshake inner write, issue a
handshake inner read, succeed (mark `Connected`, invoke and clear the
connect handler), or fail (mark `Errored`, invoke the connect handler with
the general error). -/
theorem handShake_char {τ : Type} (TM : TunnelModel τ) (s : Flow τ) :
    (∃ b t1, HandShake TM s =
      { s with
        tunnel := t1,
        writeOps := s.writeOps ++ [⟨s.connectCancelable, true, b⟩],
        writeCancelable := s.fresh,
        fresh := s.fresh + 1 }) ∨
    (∃ t1, HandShake TM s =
      { s with
        tunnel := t1,
        readOps := s.readOps ++ [⟨s.connectCancelable, true, 8192⟩],
        readCancelable := s.fresh,
        fresh := s.fresh + 1 }) ∨
    (∃ t1, HandShake TM s =
      { invokeConnect { s with tunnel := t1, sm := s.sm.connected } none with
        connectHandler := none }) ∨
    (∃ t1, HandShake TM s =
      invokeConnect { s with tunnel := t1, sm := FlowState.Errored }
        (some generalError)) := by
  rcases hhs : TM.handShake s.tunnel with ⟨act, t⟩
  cases act with
  | Success =>
      rcases hrc : TM.readCipherTextData t with ⟨ob, t1⟩
      cases ob with
      | some b =>
          exact Or.inl ⟨b, t1, by simp [HandShake, hhs, hrc]⟩
      | none =>
          exact Or.inr (Or.inr (Or.inl ⟨t1, by simp [HandShake, hhs, hrc]⟩))
  | WantIo =>
      rcases hrc : TM.readCipherTextData t with ⟨ob, t1⟩
      cases ob with
      | some b =>
          exact Or.inl ⟨b, t1, by simp [HandShake, hhs, hrc]⟩
      | none =>
          exact Or.inr (Or.inl ⟨t1, by simp [HandShake, hhs, hrc]⟩)
  | Error =>
      exact Or.inr (Or.inr (Or.inr ⟨t,
        by simp [HandShake, hhs, FlowState.errored]⟩))

/-- Characterization of `RunTask`. -/
theorem runTask_char {τ : Type} (s : Flow τ) :
    (s.posted = [] ∧ RunTask s = s) ∨
    (∃ b cap rest, s.posted = Task.readDelivery b cap :: rest ∧
      ((s.canceled.contains cap = true ∧ RunTask s = { s with posted := rest }) ∨
       (s.canceled.contains cap = false ∧
        ((∃ h, s.readHandler = some h ∧
           RunTask s =
             { s with
                 posted := rest
                 sm := s.sm.readEnd
                 readHandler := none
                 events := s.events ++ [Ev.invRead h b none none] }) ∨
         (s.readHandler = none ∧
           RunTask s =
             { s with
                 posted := rest
                 sm := s.sm.readEnd
                 events := s.events ++ [Ev.nullInvoke] }))))) ∨
    (∃ cap rest, s.posted = Task.writeDelivery cap :: rest ∧
      ((s.canceled.contains cap = true ∧ RunTask s = { s with posted := rest }) ∨
       (s.canceled.contains cap = false ∧
        ((∃ h, s.writeHandler = some h ∧
           RunTask s =
             { s with
                 posted := rest
                 sm := s.sm.writeEnd
                 writeHandler := none
                 events := s.events ++ [Ev.invWrite h none none] }) ∨
         (s.writeHandler = none ∧
           RunTask s =
             { s with
                 posted := rest
                 sm := s.sm.writeEnd
                 events := s.events ++ [Ev.nullInvoke] }))))) := by
  cases hp : s.posted with
  | nil => exact Or.inl ⟨rfl, by simp [RunTask, hp]⟩
  | cons tk rest =>
      cases tk with
      | readDelivery b cap =>
          refine Or.inr (Or.inl ⟨b, cap, rest, rfl, ?_⟩)
          by_cases hc : cap ∈ s.canceled
          · exact Or.inl ⟨by simpa using hc, by simp [RunTask, hp, hc]⟩
          · refine Or.inr ⟨by simpa using hc, ?_⟩
            cases hr : s.readHandler with
            | some h =>
                exact Or.inl ⟨h, rfl, by simp [RunTask, hp, hc, hr]⟩
            | none =>
                exact Or.inr ⟨rfl, by simp [RunTask, hp, hc, hr]⟩
      | writeDelivery cap =>
          refine Or.inr (Or.inr ⟨cap, rest, rfl, ?_⟩)
          by_cases hc : cap ∈ s.canceled
          · exact Or.inl ⟨by simpa using hc, by simp [RunTask, hp, hc]⟩
          · refine Or.inr ⟨by simpa using hc, ?_⟩
            cases hw : s.writeHandler with
            | some h =>
                exact Or.inl ⟨h, rfl, by simp [RunTask, hp, hc, hw]⟩
            | none =>
                exact Or.inr ⟨rfl, by simp [RunTask, hp, hc, hw]⟩

/-- `TryReadNextHop` emits no events. -/
theorem tryReadNextHop_events {τ : Type} (s : Flow τ) :
    (TryReadNextHop s).events = s.events := by
  rcases tryReadNextHop_char s with h | ⟨h0, h⟩ <;> rw [h]

/-- `TryReadNextHop` posts nothing. -/
theorem tryReadNextHop_posted {τ : Type} (s : Flow τ) :
    (TryReadNextHop s).posted = s.posted := by
  rcases tryReadNextHop_char s with h | ⟨h0, h⟩ <;> rw [h]

/-- `TryWriteNextHop` emits no events. -/
theorem tryWriteNextHop_events {τ : Type} (TM : TunnelModel τ) (s : Flow τ) :
    (TryWriteNextHop TM s).events = s.events := by
  rcases tryWriteNextHop_char TM s with h | ⟨h0, h1, h⟩ <;> rw [h]

/-- `TryWriteNextHop` posts nothing. -/
theorem tryWriteNextHop_posted {τ : Type} (TM : TunnelModel τ) (s : Flow τ) :
    (TryWriteNextHop TM s).posted = s.posted := by
  rcases tryWriteNextHop_char TM s with h | ⟨h0, h1, h⟩ <;> rw [h]

/-- `TryRead` emits no events: deliveries are posted, never inline. -/
theorem tryRead_events {τ : Type} (TM : TunnelModel τ) (s : Flow τ) :
    (TryRead TM s).events = s.events := by
  rcases tryRead_char TM s with h | h | ⟨h0, hr, hp, h | h⟩ <;> rw [h]
  · exact tryReadNextHop_events s
  · rw [tryReadNextHop_events]

/-- `TryWrite` emits no events: deliveries are posted, never inline. -/
theorem tryWrite_events {τ : Type} (TM : TunnelModel τ) (s : Flow τ) :
    (TryWrite TM s).events = s.events := by
  rcases tryWrite_char TM s with h | h | ⟨h0, h1, h⟩ <;> rw [h]
  exact tryWriteNextHop_events TM s

/-- `Process` with no pending error emits no events. -/
theorem process_events_of_none {τ : Type} (TM : TunnelModel τ) (s : Flow τ)
    (hp : s.pendingError = none) : (Process TM s).events = s.events := by
  rcases process_char TM s with h | ⟨he, hp2, h⟩ | ⟨pe, h0, he, hp2, hr, h⟩ |
    ⟨pe, h0, he, hp2, hw, h⟩
  · rw [h]
  · rw [h, tryWrite_events, tryRead_events]
  · rw [hp] at hp2; cases hp2
  · rw [hp] at hp2; cases hp2

/-- With a read handler armed and plaintext available, `TryRead` posts the
delivery of that plaintext, capturing `read_cancelable_`. -/
theorem tryRead_posts {τ : Type} (TM : TunnelModel τ) (s : Flow τ) (h : Nat)
    (hr : s.readHandler = some h)
    (hp : TM.hasPlainTextDataToRead s.tunnel = true) :
    Task.readDelivery (TM.readPlainTextData s.tunnel).1 s.readCancelable ∈
      (TryRead TM s).posted := by
  unfold TryRead
  rw [hr]
  simp only [hp, if_true]
  by_cases hn : TM.needCipherInput (TM.readPlainTextData s.tunnel).2
  · simp [hn, tryReadNextHop_posted]
  · simp [hn]

/-- `TryWrite` only appends to the runloop queue. -/
theorem tryWrite_posted_mem {τ : Type} (TM : TunnelModel τ) (s : Flow τ)
    (tk : Task) (h : tk ∈ s.posted) : tk ∈ (TryWrite TM s).posted := by
  rcases tryWrite_char TM s with h1 | h1 | ⟨h0, h2, h1⟩ <;> rw [h1]
  · exact h
  · rw [tryWriteNextHop_posted]; exact h
  · simp [h]

/-- Witness for `c2_report_error_policy` at concrete states: delivery on an
armed read slot, surfacing of a pending error by the next `Read`, and
storing of an undelivered error in `pending_error`. -/
theorem c2_report_error_policy_witness :
    ReportError wfR 5 true = (true, readDelivered wfR 3 5) ∧
    (ReadCall unitTM wfP).events =
      wfP.events ++ [Ev.invRead (wfP.fresh + 1) [] (some 9) (some (wfP.fresh + 1))] ∧
    (ReadCall unitTM wfP).errorReported = true ∧
    OnStReadDone unitTM 0 [] (some 4) (init ()) =
      { (init () : Flow Unit) with pendingError := some 4 } :=
  ⟨(c2_report_error_policy unitTM wfR 5 0 [] 3 9).1 (by decide),
   ((c2_report_error_policy unitTM wfP 5 0 [] 3 9).2.2.2.2.2.2.1
      (by decide) (by decide)).1,
   ((c2_report_error_policy unitTM wfP 5 0 [] 3 9).2.2.2.2.2.2.1
      (by decide) (by decide)).2,
   (c2_report_error_policy unitTM (init ()) 4 0 [] 3 9).2.2.2.2.2.1
      (by decide) (by decide) (by decide)⟩

/-- C5: the handshake driver follows the specified cycle.  On `Success`
with remaining ciphertext `b` it issues one inner write of `b` and re-enters
on successful completion; on `Success` with empty ciphertext it marks the
state `Established`, invokes the connect handler with success and clears it.
On `WantIo` with no ciphertext it issues an inner read of up to 8192 bytes
(larger completions are not deliverable), feeds the received bytes into the
tunnel and re-enters, and a tunnel error after feeding leads the re-entered
driver to mark `Errored` and invoke the connect handler with the general TLS
error.  On `Error` it marks `Errored` and invokes the connect handler with
the general TLS error. -/
theorem c5_handshake_driver {τ : Type} (TM : TunnelModel τ) (s s2 : Flow τ)
    (t t1 : τ) (b : Buffer) (cap : Token) (h : Nat) :
    (TM.handShake s.tunnel = (HSAction.Success, t) →
      TM.readCipherTextData t = (some b, t1) →
      (HandShake TM s).writeOps = s.writeOps ++ [⟨s.connectCancelable, true, b⟩] ∧
      (HandShake TM s).events = s.events ∧ (HandShake TM s).sm = s.sm) ∧
    (s2.canceled.contains cap = false →
      OnHsWriteDone TM cap none s2 = HandShake TM s2) ∧
    (TM.handShake s.tunnel = (HSAction.Success, t) →
      TM.readCipherTextData t = (none, t1) →
      s.connectHandler = some h → s.sm = FlowState.Connecting →
      (HandShake TM s).sm = FlowState.Established ∧
      (HandShake TM s).events = s.events ++ [Ev.invConnect h none (some h)] ∧
      (HandShake TM s).connectHandler = none) ∧
    (TM.handShake s.tunnel = (HSAction.WantIo, t) →
      TM.readCipherTextData t = (none, t1) →
      (HandShake TM s).readOps = s.readOps ++ [⟨s.connectCancelable, true, 8192⟩] ∧
      (HandShake TM s).events = s.events) ∧
    (∀ i op, s.readOps.get? i = some op → op.size < b.length →
      exec1 TM (Action.completeRead i b none) s = s) ∧
    (s2.canceled.contains cap = false →
      OnHsReadDone TM cap b none s2 =
        HandShake TM { s2 with tunnel := TM.writeCipherTextData b s2.tunnel }) ∧
    ((∀ u, TM.errored u = true → (TM.handShake u).1 = HSAction.Error) →
      s2.canceled.contains cap = false →
      TM.errored (TM.writeCipherTextData b s2.tunnel) = true →
      s2.connectHandler = some h →
      (OnHsReadDone TM cap b none s2).sm = FlowState.Errored ∧
      (OnHsReadDone TM cap b none s2).events =
        s2.events ++ [Ev.invConnect h (some generalError) (some h)]) ∧
    (TM.handShake s.tunnel = (HSAction.Error, t) → s.connectHandler = some h →
      (HandShake TM s).sm = FlowState.Errored ∧
      (HandShake TM s).events =
        s.events ++ [Ev.invConnect h (some generalError) (some h)]) := by
  refine ⟨?_, ?_, ?_, ?_, ?_, ?_, ?_, ?_⟩
  · intro h1 h2
    simp [HandShake, h1, h2]
  · intro hc
    have hc2 : cap ∉ s2.canceled := by simpa using hc
    simp [OnHsWriteDone, hc2]
  · intro h1 h2 hch hsm
    simp [HandShake, h1, h2, invokeConnect, hch, hsm, FlowState.connected]
  · intro h1 h2
    simp [HandShake, h1, h2]
  · intro i op hop hsz
    rw [List.get?_eq_getElem?] at hop
    simp [exec1, hop, hsz]
  · intro hc
    have hc2 : cap ∉ s2.canceled := by simpa using hc
    simp [OnHsReadDone, hc2]
  · intro herr hc hte hch
    have hc2 : cap ∉ s2.canceled := by simpa using hc
    have h1 : (TM.handShake (TM.writeCipherTextData b s2.tunnel)).1 =
        HSAction.Error := herr _ hte
    rcases hhs : TM.handShake (TM.writeCipherTextData b s2.tunnel) with ⟨a, u⟩
    have ha : a = HSAction.Error := by rw [hhs] at h1; exact h1
    subst ha
    simp [OnHsReadDone, hc2, HandShake, hhs, invokeConnect, hch,
      FlowState.errored]
  · intro h1 hch
    simp [HandShake, h1, invokeConnect, hch, FlowState.errored]

/-- Witness for `c5_handshake_driver`: each cycle case instantiated at a
concrete tunnel model and state. -/
theorem c5_handshake_driver_witness :
    ((HandShake cipherTM (init ())).writeOps = [⟨2, true, [1]⟩] ∧
      (HandShake cipherTM (init ())).events = [] ∧
      (HandShake cipherTM (init ())).sm = FlowState.Init) ∧
    OnHsWriteDone unitTM 0 none (init ()) = HandShake unitTM (init ()) ∧
    ((HandShake unitTM wfH).sm = FlowState.Established ∧
      (HandShake unitTM wfH).events = [Ev.invConnect 3 none (some 3)] ∧
      (HandShake unitTM wfH).connectHandler = none) ∧
    ((HandShake wantIoTM (init ())).readOps = [⟨2, true, 8192⟩] ∧
      (HandShake wantIoTM (init ())).events = []) ∧
    exec1 unitTM (Action.completeRead 0 [1, 2, 3] none) wfO = wfO ∧
    OnHsReadDone unitTM 0 [9] none (init ()) =
      HandShake unitTM { init () with tunnel := unitTM.writeCipherTextData [9] () } ∧
    ((OnHsReadDone errTM 0 [9] none wfH).sm = FlowState.Errored ∧
      (OnHsReadDone errTM 0 [9] none wfH).events =
        wfH.events ++ [Ev.invConnect 3 (some generalError) (some 3)]) ∧
    ((HandShake errTM wfH).sm = FlowState.Errored ∧
      (HandShake errTM wfH).events =
        wfH.events ++ [Ev.invConnect 3 (some generalError) (some 3)]) := by
  refine ⟨?_, ?_, ?_, ?_, ?_, ?_, ?_, ?_⟩
  · have := (c5_handshake_driver cipherTM (init ()) (init ()) () () [1] 0 3).1
      rfl rfl
    simpa [init] using this
  · exact (c5_handshake_driver unitTM (init ()) (init ()) () () [] 0 3).2.1 rfl
  · exact (c5_handshake_driver unitTM wfH wfH () () [] 0 3).2.2.1 rfl rfl rfl rfl
  · have := (c5_handshake_driver wantIoTM (init ()) (init ()) () () [] 0 3).2.2.2.1
      rfl rfl
    simpa [init] using this
  · exact (c5_handshake_driver unitTM wfO wfO () () [1, 2, 3] 0 3).2.2.2.2.1
      0 ⟨0, false, 2⟩ rfl (by decide)
  · exact (c5_handshake_driver unitTM (init ()) (init ()) () () [9] 0 3).2.2.2.2.2.1 rfl
  · exact (c5_handshake_driver errTM wfH wfH () () [9] 0 3).2.2.2.2.2.2.1
      (by decide) rfl rfl rfl
  · exact (c5_handshake_driver errTM wfH wfH () () [9] 0 3).2.2.2.2.2.2.2 rfl rfl

/-- C6 (amended): in `TryRead`, when a user read handler is registered and
the tunnel has no plaintext, an inner read is attempted unconditionally
(`TryReadNextHop` is called whether or not the tunnel needs cipher input);
when no user read handler is registered, an inner read is attempted exactly
when the tunnel still needs cipher input — in both cases subject to
`TryReadNextHop`'s guard on the inner flow's reading state. -/
theorem c6_amended {τ : Type} (TM : TunnelModel τ) (s : Flow τ) :
    (s.readHandler.isSome = true →
      TM.hasPlainTextDataToRead s.tunnel = false →
      TryRead TM s = TryReadNextHop s) ∧
    (s.readHandler = none →
      TryRead TM s =
        if TM.needCipherInput s.tunnel then TryReadNextHop s else s) := by
  constructor
  · intro hh hp
    cases hr : s.readHandler with
    | none => rw [hr] at hh; cases hh
    | some h0 => simp [TryRead, hr, hp]
  · intro hr
    by_cases hn : TM.needCipherInput s.tunnel <;> simp [TryRead, hr, hn]

/-- Witness for `c6_amended`: at the quiescent tunnel an armed read with no
plaintext still attempts the inner read, and with no handler nothing is
attempted. -/
theorem c6_amended_witness :
    (wfR.readHandler.isSome = true ∧
      quietTM.hasPlainTextDataToRead wfR.tunnel = false ∧
      TryRead quietTM wfR = TryReadNextHop wfR) ∧
    ((init () : Flow Unit).readHandler = none ∧
      TryRead quietTM (init ()) =
        if quietTM.needCipherInput () then TryReadNextHop (init ()) else init ()) :=
  ⟨⟨by decide, by decide, (c6_amended quietTM wfR).1 (by decide) (by decide)⟩,
   ⟨by decide, (c6_amended quietTM (init ())).2 (by decide)⟩⟩

/-- C7 (amended): a user `Read` never invokes a handler inline unless a
pending error is being surfaced: with `pending_error_` clear, the whole
`Read` call emits no invocation; when plaintext is buffered the delivery is
posted to the runloop (capturing the fresh `read_cancelable_`), and runs on
a later runloop turn, where the posted closure performs the invocation. -/
theorem c7_amended {τ : Type} (TM : TunnelModel τ) (s : Flow τ) :
    (s.pendingError = none → (ReadCall TM s).events = s.events) ∧
    (s.pendingError = none → s.errorReported = false →
      TM.hasPlainTextDataToRead s.tunnel = true →
      Task.readDelivery (TM.readPlainTextData s.tunnel).1 s.fresh ∈
        (ReadCall TM s).posted) ∧
    (∀ (s3 : Flow τ) b2 cp rest h2,
      s3.posted = Task.readDelivery b2 cp :: rest →
      s3.canceled.contains cp = false → s3.readHandler = some h2 →
      (RunTask s3).events = s3.events ++ [Ev.invRead h2 b2 none none]) := by
  refine ⟨?_, ?_, ?_⟩
  · intro hp
    exact process_events_of_none TM _ hp
  · intro hp he hpl
    have hpr : Process TM
        { s with
          readCancelable := s.fresh,
          readHandler := some (s.fresh + 1),
          fresh := s.fresh + 2,
          sm := s.sm.readBegin } =
        TryWrite TM (TryRead TM
          { s with
            readCancelable := s.fresh,
            readHandler := some (s.fresh + 1),
            fresh := s.fresh + 2,
            sm := s.sm.readBegin }) := by
      simp [Process, he, hp]
    unfold ReadCall
    rw [hpr]
    exact tryWrite_posted_mem TM _ _
      (tryRead_posts TM _ (s.fresh + 1) rfl hpl)
  · intro s3 b2 cp rest h2 hp3 hc3 hr3
    have hc4 : cp ∉ s3.canceled := by simpa using hc3
    simp [RunTask, hp3, hc4, hr3]

/-- Witness for `c7_amended` at concrete states: a `Read` with no pending
error emits nothing, a `Read` with plaintext posts the delivery, and the
posted closure invokes the handler when it runs. -/
theorem c7_amended_witness :
    (ReadCall quietTM wfR).events = wfR.events ∧
    Task.readDelivery (listTM.readPlainTextData wfL.tunnel).1 wfL.fresh ∈
      (ReadCall listTM wfL).posted ∧
    (RunTask wfD).events = wfD.events ++ [Ev.invRead 3 [7] none none] :=
  ⟨(c7_amended quietTM wfR).1 (by decide),
   (c7_amended listTM wfL).2.1 (by decide) (by decide) (by decide),
   (c7_amended quietTM wfD).2.2 wfD [7] 9 [] 3 (by decide) (by decide) (by decide)⟩

/-- C10: the steady-state inner continuations guard on the user-facing
tokens: the read issued by `TryReadNextHop` captures `read_cancelable_` and
only the returned inner token is stored in `next_read_cancelable_` (the
symmetric fact holds for writes); the destructor cancels all five tokens;
and a completion whose captured user token is canceled returns immediately,
leaving the state untouched — no tunnel feed, no error recording, no
`Process`. -/
theorem c10_token_guards {τ : Type} (TM : TunnelModel τ) (s : Flow τ)
    (cap : Token) (b : Buffer) (e : Option ECode) :
    (s.readOps = [] →
      (TryReadNextHop s).readOps = [⟨s.readCancelable, false, 8192⟩] ∧
      (TryReadNextHop s).nextReadCancelable = s.fresh) ∧
    (s.writeOps = [] → TM.finishWritingCipherData s.tunnel = false →
      (TryWriteNextHop TM s).writeOps =
        [⟨s.writeCancelable, false, (TM.readCipherTextData s.tunnel).1.getD []⟩] ∧
      (TryWriteNextHop TM s).nextWriteCancelable = s.fresh) ∧
    (s.readCancelable ∈ (Destruct s).canceled ∧
     s.writeCancelable ∈ (Destruct s).canceled ∧
     s.connectCancelable ∈ (Destruct s).canceled ∧
     s.nextReadCancelable ∈ (Destruct s).canceled ∧
     s.nextWriteCancelable ∈ (Destruct s).canceled) ∧
    (s.canceled.contains cap = true →
      OnStReadDone TM cap b e s = s ∧ OnStWriteDone TM cap e s = s) := by
  refine ⟨?_, ?_, ?_, ?_⟩
  · intro h0
    constructor <;> simp [TryReadNextHop, h0]
  · intro h0 hf
    constructor <;> simp [TryWriteNextHop, h0, hf]
  · simp [Destruct]
  · intro hc
    have hc2 : cap ∈ s.canceled := by simpa using hc
    constructor <;> simp [OnStReadDone, OnStWriteDone, hc2]

/-- Witness for `c10_token_guards` at concrete states. -/
theorem c10_token_guards_witness :
    ((TryReadNextHop (init () : Flow Unit)).readOps = [⟨0, false, 8192⟩] ∧
      (TryReadNextHop (init () : Flow Unit)).nextReadCancelable = 5) ∧
    ((TryWriteNextHop unitTM (init ())).writeOps = [⟨1, false, []⟩] ∧
      (TryWriteNextHop unitTM (init ())).nextWriteCancelable = 5) ∧
    (0 : Token) ∈ (Destruct (init () : Flow Unit)).canceled ∧
    (OnStReadDone unitTM 0 [] (some 3) wfC = wfC ∧
      OnStWriteDone unitTM 0 (some 3) wfC = wfC) :=
  ⟨(c10_token_guards unitTM (init ()) 0 [] none).1 rfl,
   (c10_token_guards unitTM (init ()) 0 [] none).2.1 rfl (by decide),
   (c10_token_guards unitTM (init ()) 0 [] none).2.2.1.1,
   (c10_token_guards unitTM wfC 0 [] (some 3)).2.2.2 (by decide)⟩

/-- `countRead` distributes over append. -/
theorem countRead_append (i : Nat) (es l : List Ev) :
    countRead i (es ++ l) = countRead i es + countRead i l := by
  simp [countRead, List.filter_append]

/-- `countWrite` distributes over append. -/
theorem countWrite_append (i : Nat) (es l : List Ev) :
    countWrite i (es ++ l) = countWrite i es + countWrite i l := by
  simp [countWrite, List.filter_append]

/-- `countConnect` distributes over append. -/
theorem countConnect_append (es l : List Ev) :
    countConnect (es ++ l) = countConnect es + countConnect l := by
  simp [countConnect, List.filter_append]

/-- Counting a single read invocation. -/
theorem countRead_single_read (i h : Nat) (b : Buffer) (err : Option ECode)
    (sl : Option Nat) :
    countRead i [Ev.invRead h b err sl] = if h = i then 1 else 0 := by
  by_cases hh : h = i <;> simp [countRead, hh]

/-- Read counts ignore write invocations. -/
theorem countRead_single_write (i h : Nat) (err : Option ECode)
    (sl : Option Nat) : countRead i [Ev.invWrite h err sl] = 0 := by
  simp [countRead]

/-- Read counts ignore connect invocations. -/
theorem countRead_single_connect (i h : Nat) (err : Option ECode)
    (sl : Option Nat) : countRead i [Ev.invConnect h err sl] = 0 := by
  simp [countRead]

/-- Read counts ignore null invocations. -/
theorem countRead_single_null (i : Nat) : countRead i [Ev.nullInvoke] = 0 := by
  simp [countRead]

/-- Counting a single write invocation. -/
theorem countWrite_single_write (i h : Nat) (err : Option ECode)
    (sl : Option Nat) :
    countWrite i [Ev.invWrite h err sl] = if h = i then 1 else 0 := by
  by_cases hh : h = i <;> simp [countWrite, hh]

/-- Write counts ignore read invocations. -/
theorem countWrite_single_read (i h : Nat) (b : Buffer) (err : Option ECode)
    (sl : Option Nat) : countWrite i [Ev.invRead h b err sl] = 0 := by
  simp [countWrite]

/-- Write counts ignore connect invocations. -/
theorem countWrite_single_connect (i h : Nat) (err : Option ECode)
    (sl : Option Nat) : countWrite i [Ev.invConnect h err sl] = 0 := by
  simp [countWrite]

/-- Write counts ignore null invocations. -/
theorem countWrite_single_null (i : Nat) : countWrite i [Ev.nullInvoke] = 0 := by
  simp [countWrite]

/-- Counting a single connect invocation. -/
theorem countConnect_single_connect (h : Nat) (err : Option ECode)
    (sl : Option Nat) : countConnect [Ev.invConnect h err sl] = 1 := by
  simp [countConnect]

/-- Connect counts ignore read invocations. -/
theorem countConnect_single_read (h : Nat) (b : Buffer) (err : Option ECode)
    (sl : Option Nat) : countConnect [Ev.invRead h b err sl] = 0 := by
  simp [countConnect]

/-- Connect counts ignore write invocations. -/
theorem countConnect_single_write (h : Nat) (err : Option ECode)
    (sl : Option Nat) : countConnect [Ev.invWrite h err sl] = 0 := by
  simp [countConnect]

/-- Connect counts ignore null invocations. -/
theorem countConnect_single_null : countConnect [Ev.nullInvoke] = 0 := by
  simp [countConnect]

/-- A handler id at or above every id occurring in a trace has no read
invocations in it. -/
theorem countRead_zero_of_ge (es : List Ev) (n i : Nat)
    (hb : ∀ e ∈ es, ∀ j, evId e = some j → j < n) (hn : n ≤ i) :
    countRead i es = 0 := by
  induction es with
  | nil => rfl
  | cons e rest ih =>
      have h1 : countRead i [e] = 0 := by
        cases e with
        | invRead h2 b err sl =>
            have h3 : h2 < n := hb _ (List.mem_cons_self _ _) h2 rfl
            have h4 : h2 ≠ i := by omega
            simp [countRead, h4]
        | invWrite h2 err sl => simp [countRead]
        | invConnect h2 err sl => simp [countRead]
        | nullInvoke => simp [countRead]
      have h2 : countRead i (e :: rest) = countRead i [e] + countRead i rest := by
        have := countRead_append i [e] rest
        simpa using this
      rw [h2, h1, ih (fun e2 he2 => hb e2 (List.mem_cons_of_mem _ he2))]

/-- A handler id at or above every id occurring in a trace has no write
invocations in it. -/
theorem countWrite_zero_of_ge (es : List Ev) (n i : Nat)
    (hb : ∀ e ∈ es, ∀ j, evId e = some j → j < n) (hn : n ≤ i) :
    countWrite i es = 0 := by
  induction es with
  | nil => rfl
  | cons e rest ih =>
      have h1 : countWrite i [e] = 0 := by
        cases e with
        | invWrite h2 err sl =>
            have h3 : h2 < n := hb _ (List.mem_cons_self _ _) h2 rfl
            have h4 : h2 ≠ i := by omega
            simp [countWrite, h4]
        | invRead h2 b err sl => simp [countWrite]
        | invConnect h2 err sl => simp [countWrite]
        | nullInvoke => simp [countWrite]
      have h2 : countWrite i (e :: rest) = countWrite i [e] + countWrite i rest := by
        have := countWrite_append i [e] rest
        simpa using this
      rw [h2, h1, ih (fun e2 he2 => hb e2 (List.mem_cons_of_mem _ he2))]

/-- A nonempty list all of whose elements satisfy a predicate has a nonempty
filtering. -/
theorem filter_nil_of_all {α : Type} (l : List α) (p : α → Bool)
    (hall : ∀ x ∈ l, p x = true) (hf : (l.filter p).length = 0) : l = [] := by
  cases l with
  | nil => rfl
  | cons x rest =>
      have hx : p x = true := hall x (List.mem_cons_self _ _)
      simp [List.filter_cons, hx] at hf

/-- The freshly constructed flow satisfies the invariant. -/
theorem good_init {τ : Type} (t : τ) : GoodState (init t) := by
  constructor <;> simp [init, hsOps, countRead, countWrite, countConnect]

/-- The invariant only inspects the handler slots, the trace, the fresh
counter, the operation lists, the machine state and the runloop queue; any
state agreeing on those (with a possibly larger fresh counter) inherits
it. -/
theorem good_congr {τ : Type} {s s2 : Flow τ} (g : GoodState s)
    (hev : s2.events = s.events) (hrh : s2.readHandler = s.readHandler)
    (hwh : s2.writeHandler = s.writeHandler)
    (hch : s2.connectHandler = s.connectHandler)
    (hfr : s.fresh ≤ s2.fresh) (hro : s2.readOps = s.readOps)
    (hwo : s2.writeOps = s.writeOps) (hco : s2.connectOp = s.connectOp)
    (hsm : s2.sm = s.sm) (hpo : s2.posted = s.posted) : GoodState s2 := by
  have hhs : hsOps s2 = hsOps s := by
    simp [hsOps, hro, hwo, hco]
  constructor
  · intro e he j hj
    rw [hev] at he
    exact lt_of_lt_of_le (g.evIdsLt e he j hj) hfr
  · intro j hj
    rw [hrh] at hj
    exact lt_of_lt_of_le (g.readLt j hj) hfr
  · intro j hj
    rw [hwh] at hj
    exact lt_of_lt_of_le (g.writeLt j hj) hfr
  · intro j hj
    rw [hch] at hj
    exact lt_of_lt_of_le (g.connLt j hj) hfr
  · intro j hj
    rw [hrh] at hj
    rw [hev]
    exact g.readOnce j hj
  · intro j hj
    rw [hwh] at hj
    rw [hev]
    exact g.writeOnce j hj
  · rw [hev]
    exact g.connCount
  · rw [hev, hhs]
    exact g.connQuiescent
  · rw [hhs]
    exact g.hsLe
  · rw [hhs, hsm]
    exact g.hsConnecting
  · rw [hsm, hev, hro, hwo, hco, hpo, hrh, hwh, hch]
    exact g.initClean
  · rw [hsm, hpo, hrh, hwh, hro, hwo]
    exact g.hsClean
  · rw [hro]
    exact g.readsLe
  · rw [hwo]
    exact g.writesLe
  · intro j
    rw [hev]
    exact g.countReadLe j
  · intro j
    rw [hev]
    exact g.countWriteLe j

/-- Issuing a steady inner read preserves the invariant outside the
handshake phase. -/
theorem good_tryReadNextHop {τ : Type} {s : Flow τ} (g : GoodState s)
    (h1 : s.sm ≠ FlowState.Init) (h2 : s.sm ≠ FlowState.Connecting) :
    GoodState (TryReadNextHop s) := by
  rcases tryReadNextHop_char s with h | ⟨h0, h⟩
  · rw [h]; exact g
  · rw [h]
    have hhs : hsOps
        { s with
          readOps := [⟨s.readCancelable, false, 8192⟩],
          nextReadCancelable := s.fresh,
          fresh := s.fresh + 1 } = hsOps s := by
      simp [hsOps, h0]
    constructor
    · intro e he j hj
      exact Nat.lt_succ_of_lt (g.evIdsLt e he j hj)
    · intro j hj
      exact Nat.lt_succ_of_lt (g.readLt j hj)
    · intro j hj
      exact Nat.lt_succ_of_lt (g.writeLt j hj)
    · intro j hj
      exact Nat.lt_succ_of_lt (g.connLt j hj)
    · exact g.readOnce
    · exact g.writeOnce
    · exact g.connCount
    · intro hcc
      rw [hhs]
      exact g.connQuiescent hcc
    · rw [hhs]
      exact g.hsLe
    · intro hpos
      rw [hhs] at hpos
      exact (h2 (g.hsConnecting hpos)).elim
    · intro hh
      exact absurd hh h1
    · intro hh
      exact absurd hh h2
    · simp
    · exact g.writesLe
    · exact g.countReadLe
    · exact g.countWriteLe

/-- Issuing a steady inner write preserves the invariant outside the
handshake phase. -/
theorem good_tryWriteNextHop {τ : Type} (TM : TunnelModel τ) {s : Flow τ}
    (g : GoodState s) (h1 : s.sm ≠ FlowState.Init)
    (h2 : s.sm ≠ FlowState.Connecting) : GoodState (TryWriteNextHop TM s) := by
  rcases tryWriteNextHop_char TM s with h | ⟨h0, hf, h⟩
  · rw [h]; exact g
  · rw [h]
    have hhs : hsOps
        { s with
          tunnel := (TM.readCipherTextData s.tunnel).2,
          writeOps :=
            [⟨s.writeCancelable, false, (TM.readCipherTextData s.tunnel).1.getD []⟩],
          nextWriteCancelable := s.fresh,
          fresh := s.fresh + 1 } = hsOps s := by
      simp [hsOps, h0]
    constructor
    · intro e he j hj
      exact Nat.lt_succ_of_lt (g.evIdsLt e he j hj)
    · intro j hj
      exact Nat.lt_succ_of_lt (g.readLt j hj)
    · intro j hj
      exact Nat.lt_succ_of_lt (g.writeLt j hj)
    · intro j hj
      exact Nat.lt_succ_of_lt (g.connLt j hj)
    · exact g.readOnce
    · exact g.writeOnce
    · exact g.connCount
    · intro hcc
      rw [hhs]
      exact g.connQuiescent hcc
    · rw [hhs]
      exact g.hsLe
    · intro hpos
      rw [hhs] at hpos
      exact (h2 (g.hsConnecting hpos)).elim
    · intro hh
      exact absurd hh h1
    · intro hh
      exact absurd hh h2
    · exact g.readsLe
    · simp
    · exact g.countReadLe
    · exact g.countWriteLe

/-- Posting a closure (and advancing the tunnel) preserves the invariant
outside the handshake phase. -/
theorem good_postTask {τ : Type} {s : Flow τ} (g : GoodState s)
    (h1 : s.sm ≠ FlowState.Init) (h2 : s.sm ≠ FlowState.Connecting)
    (t1 : τ) (tk : Task) :
    GoodState { s with tunnel := t1, posted := s.posted ++ [tk] } := by
  constructor
  · exact g.evIdsLt
  · exact g.readLt
  · exact g.writeLt
  · exact g.connLt
  · exact g.readOnce
  · exact g.writeOnce
  · exact g.connCount
  · intro hcc
    have := g.connQuiescent hcc
    simpa [hsOps] using this
  · have := g.hsLe
    simpa [hsOps] using this
  · intro hpos
    have hpos2 : 0 < hsOps s := by simpa [hsOps] using hpos
    exact (h2 (g.hsConnecting hpos2)).elim
  · intro hh
    exact absurd hh h1
  · intro hh
    exact absurd hh h2
  · exact g.readsLe
  · exact g.writesLe
  · exact g.countReadLe
  · exact g.countWriteLe

/-- Delivering an error to the armed read handler preserves the invariant
outside the handshake phase. -/
theorem good_readDelivered {τ : Type} {s : Flow τ} {h : Nat} (g : GoodState s)
    (hr : s.readHandler = some h) (h1 : s.sm ≠ FlowState.Init)
    (h2 : s.sm ≠ FlowState.Connecting) (e : ECode) :
    GoodState (readDelivered s h e) := by
  have hlt : h < s.fresh := g.readLt h hr
  simp only [readDelivered]
  constructor
  · intro e2 he2 j hj
    rcases List.mem_append.mp he2 with h3 | h3
    · exact g.evIdsLt e2 h3 j hj
    · have he3 : e2 = Ev.invRead h [] (some e) (some h) := by simpa using h3
      rw [he3] at hj
      have : j = h := by simpa [evId] using hj.symm
      rw [this]
      exact hlt
  · intro j hj
    cases hj
  · intro j hj
    exact g.writeLt j hj
  · intro j hj
    exact g.connLt j hj
  · intro j hj
    cases hj
  · intro j hj
    rw [countWrite_append, countWrite_single_read]
    exact g.writeOnce j hj
  · rw [countConnect_append, countConnect_single_read]
    simpa using g.connCount
  · intro hcc
    rw [countConnect_append, countConnect_single_read] at hcc
    have := g.connQuiescent (by simpa using hcc)
    simpa [hsOps] using this
  · have := g.hsLe
    simpa [hsOps] using this
  · intro hpos
    have hpos2 : 0 < hsOps s := by simpa [hsOps] using hpos
    exact (h2 (g.hsConnecting hpos2)).elim
  · intro hh
    exact absurd hh h1
  · intro hh
    exact absurd hh h2
  · exact g.readsLe
  · exact g.writesLe
  · intro j
    rw [countRead_append, countRead_single_read]
    by_cases hji : h = j
    · rw [hji] at hr
      rw [g.readOnce j hr]
      simp [hji]
    · simp [hji]
      exact g.countReadLe j
  · intro j
    rw [countWrite_append, countWrite_single_read]
    exact g.countWriteLe j

/-- Delivering an error to the armed write handler preserves the invariant
outside the handshake phase. -/
theorem good_writeDelivered {τ : Type} {s : Flow τ} {h : Nat} (g : GoodState s)
    (hw : s.writeHandler = some h) (h1 : s.sm ≠ FlowState.Init)
    (h2 : s.sm ≠ FlowState.Connecting) (e : ECode) :
    GoodState (writeDelivered s h e) := by
  have hlt : h < s.fresh := g.writeLt h hw
  simp only [writeDelivered]
  constructor
  · intro e2 he2 j hj
    rcases List.mem_append.mp he2 with h3 | h3
    · exact g.evIdsLt e2 h3 j hj
    · have he3 : e2 = Ev.invWrite h (some e) (some h) := by simpa using h3
      rw [he3] at hj
      have : j = h := by simpa [evId] using hj.symm
      rw [this]
      exact hlt
  · intro j hj
    exact g.readLt j hj
  · intro j hj
    cases hj
  · intro j hj
    exact g.connLt j hj
  · intro j hj
    rw [countRead_append, countRead_single_write]
    exact g.readOnce j hj
  · intro j hj
    cases hj
  · rw [countConnect_append, countConnect_single_write]
    simpa using g.connCount
  · intro hcc
    rw [countConnect_append, countConnect_single_write] at hcc
    have := g.connQuiescent (by simpa using hcc)
    simpa [hsOps] using this
  · have := g.hsLe
    simpa [hsOps] using this
  · intro hpos
    have hpos2 : 0 < hsOps s := by simpa [hsOps] using hpos
    exact (h2 (g.hsConnecting hpos2)).elim
  · intro hh
    exact absurd hh h1
  · intro hh
    exact absurd hh h2
  · exact g.readsLe
  · exact g.writesLe
  · intro j
    rw [countRead_append, countRead_single_write]
    exact g.countReadLe j
  · intro j
    rw [countWrite_append, countWrite_single_write]
    by_cases hji : h = j
    · rw [hji] at hw
      rw [g.writeOnce j hw]
      simp [hji]
    · simp [hji]
      exact g.countWriteLe j

/-- Latching `error_reported_` preserves the invariant. -/
theorem good_set_errorReported {τ : Type} {s : Flow τ} (g : GoodState s)
    (b : Bool) : GoodState { s with errorReported := b } :=
  good_congr g rfl rfl rfl rfl le_rfl rfl rfl rfl rfl rfl

/-- Storing a pending error preserves the invariant. -/
theorem good_set_pendingError {τ : Type} {s : Flow τ} (g : GoodState s)
    (pe : Option ECode) : GoodState { s with pendingError := pe } :=
  good_congr g rfl rfl rfl rfl le_rfl rfl rfl rfl rfl rfl

/-- Canceling a token preserves the invariant. -/
theorem good_cancel {τ : Type} {s : Flow τ} (g : GoodState s) (t : Token) :
    GoodState { s with canceled := t :: s.canceled } :=
  good_congr g rfl rfl rfl rfl le_rfl rfl rfl rfl rfl rfl

/-- `TryReadNextHop` leaves the machine state unchanged. -/
theorem tryReadNextHop_sm {τ : Type} (s : Flow τ) :
    (TryReadNextHop s).sm = s.sm := by
  rcases tryReadNextHop_char s with h | ⟨h0, h⟩ <;> rw [h]

/-- `TryWriteNextHop` leaves the machine state unchanged. -/
theorem tryWriteNextHop_sm {τ : Type} (TM : TunnelModel τ) (s : Flow τ) :
    (TryWriteNextHop TM s).sm = s.sm := by
  rcases tryWriteNextHop_char TM s with h | ⟨h0, hf, h⟩ <;> rw [h]

/-- `TryRead` leaves the machine state unchanged. -/
theorem tryRead_sm {τ : Type} (TM : TunnelModel τ) (s : Flow τ) :
    (TryRead TM s).sm = s.sm := by
  rcases tryRead_char TM s with h | h | ⟨h0, hr, hp, h | h⟩ <;> rw [h]
  · exact tryReadNextHop_sm s
  · rw [tryReadNextHop_sm]

/-- `TryWrite` leaves the machine state unchanged. -/
theorem tryWrite_sm {τ : Type} (TM : TunnelModel τ) (s : Flow τ) :
    (TryWrite TM s).sm = s.sm := by
  rcases tryWrite_char TM s with h | h | ⟨hf, hw, h⟩ <;> rw [h]
  exact tryWriteNextHop_sm TM s

/-- `ReportError` preserves the invariant outside the handshake phase. -/
theorem good_reportError {τ : Type} {s : Flow τ} (g : GoodState s)
    (h1 : s.sm ≠ FlowState.Init) (h2 : s.sm ≠ FlowState.Connecting)
    (e : ECode) (p : Bool) : GoodState (ReportError s e p).2 := by
  rcases reportError_char s e p with ⟨hr, hw, h⟩ | ⟨h0, hr, h⟩ | ⟨h0, hw, h⟩
  · rw [h]
    exact g
  · rw [h]
    exact good_readDelivered g hr h1 h2 e
  · rw [h]
    exact good_writeDelivered g hw h1 h2 e

/-- `TryRead` preserves the invariant outside the handshake phase. -/
theorem good_tryRead {τ : Type} (TM : TunnelModel τ) {s : Flow τ}
    (g : GoodState s) (h1 : s.sm ≠ FlowState.Init)
    (h2 : s.sm ≠ FlowState.Connecting) : GoodState (TryRead TM s) := by
  rcases tryRead_char TM s with h | h | ⟨h0, hr, hp, h | h⟩ <;> rw [h]
  · exact g
  · exact good_tryReadNextHop g h1 h2
  · exact good_postTask g h1 h2 _ _
  · exact good_tryReadNextHop (good_postTask g h1 h2 _ _) h1 h2

/-- `TryWrite` preserves the invariant outside the handshake phase. -/
theorem good_tryWrite {τ : Type} (TM : TunnelModel τ) {s : Flow τ}
    (g : GoodState s) (h1 : s.sm ≠ FlowState.Init)
    (h2 : s.sm ≠ FlowState.Connecting) : GoodState (TryWrite TM s) := by
  rcases tryWrite_char TM s with h | h | ⟨hf, hw, h⟩ <;> rw [h]
  · exact g
  · exact good_tryWriteNextHop TM g h1 h2
  · exact good_postTask g h1 h2 s.tunnel (Task.writeDelivery s.writeCancelable)

/-- `Process` preserves the invariant outside the handshake phase. -/
theorem good_process {τ : Type} (TM : TunnelModel τ) {s : Flow τ}
    (g : GoodState s) (h1 : s.sm ≠ FlowState.Init)
    (h2 : s.sm ≠ FlowState.Connecting) : GoodState (Process TM s) := by
  rcases process_char TM s with h | ⟨he, hp, h⟩ | ⟨pe, hid, he, hp, hr, h⟩ |
    ⟨pe, hid, he, hp, hw, h⟩ <;> rw [h]
  · exact g
  · refine good_tryWrite TM (good_tryRead TM g h1 h2) ?_ ?_
    · rw [tryRead_sm]; exact h1
    · rw [tryRead_sm]; exact h2
  · exact good_set_errorReported (good_readDelivered g hr h1 h2 pe) true
  · exact good_set_errorReported (good_writeDelivered g hw h1 h2 pe) true

/-- `HandShake` preserves the invariant when entered as in the source: in
the `Connecting` state, with no outstanding inner operation and no connect
invocation recorded yet. -/
theorem good_handShake {τ : Type} (TM : TunnelModel τ) {s : Flow τ}
    (g : GoodState s) (hsm : s.sm = FlowState.Connecting)
    (hro : s.readOps = []) (hwo : s.writeOps = []) (hco : s.connectOp = none)
    (hcc : countConnect s.events = 0) : GoodState (HandShake TM s) := by
  obtain ⟨hpo, hrh, hwh, hallr, hallw⟩ := g.hsClean hsm
  rcases handShake_char TM s with ⟨b, t1, h⟩ | ⟨t1, h⟩ | ⟨t1, h⟩ | ⟨t1, h⟩ <;> rw [h]
  · constructor
    · intro e he j hj
      exact Nat.lt_succ_of_lt (g.evIdsLt e he j hj)
    · intro j hj
      exact Nat.lt_succ_of_lt (g.readLt j hj)
    · intro j hj
      exact Nat.lt_succ_of_lt (g.writeLt j hj)
    · intro j hj
      exact Nat.lt_succ_of_lt (g.connLt j hj)
    · exact g.readOnce
    · exact g.writeOnce
    · exact g.connCount
    · intro hcc2
      rw [hcc] at hcc2
      omega
    · simp [hsOps, hro, hwo, hco]
    · intro _
      exact hsm
    · intro hh
      rw [hsm] at hh
      simp at hh
    · intro _
      refine ⟨hpo, hrh, hwh, ?_, ?_⟩
      · rw [hro]
        simp
      · rw [hwo]
        simp
    · rw [hro]
      simp
    · rw [hwo]
      simp
    · exact g.countReadLe
    · exact g.countWriteLe
  · constructor
    · intro e he j hj
      exact Nat.lt_succ_of_lt (g.evIdsLt e he j hj)
    · intro j hj
      exact Nat.lt_succ_of_lt (g.readLt j hj)
    · intro j hj
      exact Nat.lt_succ_of_lt (g.writeLt j hj)
    · intro j hj
      exact Nat.lt_succ_of_lt (g.connLt j hj)
    · exact g.readOnce
    · exact g.writeOnce
    · exact g.connCount
    · intro hcc2
      rw [hcc] at hcc2
      omega
    · simp [hsOps, hro, hwo, hco]
    · intro _
      exact hsm
    · intro hh
      rw [hsm] at hh
      simp at hh
    · intro _
      refine ⟨hpo, hrh, hwh, ?_, ?_⟩
      · rw [hro]
        simp
      · rw [hwo]
        simp
    · rw [hro]
      simp
    · rw [hwo]
      simp
    · exact g.countReadLe
    · exact g.countWriteLe
  · rcases invokeConnect_char
        { s with tunnel := t1, sm := s.sm.connected } none with
      ⟨h2, hch, hic⟩ | ⟨hch, hic⟩ <;> rw [hic] <;> dsimp only
    · constructor
      · intro e he j hj
        rcases List.mem_append.mp he with h3 | h3
        · exact g.evIdsLt e h3 j hj
        · have he3 : e = Ev.invConnect h2 none (some h2) := by simpa using h3
          rw [he3] at hj
          have hj2 : j = h2 := by simpa [evId] using hj.symm
          rw [hj2]
          exact g.connLt h2 hch
      · exact g.readLt
      · exact g.writeLt
      · intro j hj
        cases hj
      · intro j hj
        rw [countRead_append, countRead_single_connect]
        exact g.readOnce j hj
      · intro j hj
        rw [countWrite_append, countWrite_single_connect]
        exact g.writeOnce j hj
      · rw [countConnect_append, countConnect_single_connect, hcc]
      · intro _
        simp [hsOps, hro, hwo, hco]
      · simp [hsOps, hro, hwo, hco]
      · intro hpos
        simp [hsOps, hro, hwo, hco] at hpos
      · intro hh
        rw [hsm] at hh
        simp [FlowState.connected] at hh
      · intro hh
        rw [hsm] at hh
        simp [FlowState.connected] at hh
      · rw [hro]
        simp
      · rw [hwo]
        simp
      · intro j
        rw [countRead_append, countRead_single_connect]
        exact g.countReadLe j
      · intro j
        rw [countWrite_append, countWrite_single_connect]
        exact g.countWriteLe j
    · constructor
      · intro e he j hj
        rcases List.mem_append.mp he with h3 | h3
        · exact g.evIdsLt e h3 j hj
        · have he3 : e = Ev.nullInvoke := by simpa using h3
          rw [he3] at hj
          simp [evId] at hj
      · exact g.readLt
      · exact g.writeLt
      · intro j hj
        cases hj
      · intro j hj
        rw [countRead_append, countRead_single_null]
        exact g.readOnce j hj
      · intro j hj
        rw [countWrite_append, countWrite_single_null]
        exact g.writeOnce j hj
      · rw [countConnect_append, countConnect_single_null, hcc]
        omega
      · intro _
        simp [hsOps, hro, hwo, hco]
      · simp [hsOps, hro, hwo, hco]
      · intro hpos
        simp [hsOps, hro, hwo, hco] at hpos
      · intro hh
        rw [hsm] at hh
        simp [FlowState.connected] at hh
      · intro hh
        rw [hsm] at hh
        simp [FlowState.connected] at hh
      · rw [hro]
        simp
      · rw [hwo]
        simp
      · intro j
        rw [countRead_append, countRead_single_null]
        exact g.countReadLe j
      · intro j
        rw [countWrite_append, countWrite_single_null]
        exact g.countWriteLe j
  · rcases invokeConnect_char
        { s with tunnel := t1, sm := FlowState.Errored } (some generalError) with
      ⟨h2, hch, hic⟩ | ⟨hch, hic⟩ <;> rw [hic] <;> dsimp only
    · constructor
      · intro e he j hj
        rcases List.mem_append.mp he with h3 | h3
        · exact g.evIdsLt e h3 j hj
        · have he3 : e = Ev.invConnect h2 (some generalError) (some h2) := by
            simpa using h3
          rw [he3] at hj
          have hj2 : j = h2 := by simpa [evId] using hj.symm
          rw [hj2]
          exact g.connLt h2 hch
      · exact g.readLt
      · exact g.writeLt
      · intro j hj
        have hj2 : s.connectHandler = some j := hj
        exact g.connLt j hj2
      · intro j hj
        rw [countRead_append, countRead_single_connect]
        exact g.readOnce j hj
      · intro j hj
        rw [countWrite_append, countWrite_single_connect]
        exact g.writeOnce j hj
      · rw [countConnect_append, countConnect_single_connect, hcc]
      · intro _
        simp [hsOps, hro, hwo, hco]
      · simp [hsOps, hro, hwo, hco]
      · intro hpos
        simp [hsOps, hro, hwo, hco] at hpos
      · intro hh
        simp at hh
      · intro hh
        simp at hh
      · rw [hro]
        simp
      · rw [hwo]
        simp
      · intro j
        rw [countRead_append, countRead_single_connect]
        exact g.countReadLe j
      · intro j
        rw [countWrite_append, countWrite_single_connect]
        exact g.countWriteLe j
    · constructor
      · intro e he j hj
        rcases List.mem_append.mp he with h3 | h3
        · exact g.evIdsLt e h3 j hj
        · have he3 : e = Ev.nullInvoke := by simpa using h3
          rw [he3] at hj
          simp [evId] at hj
      · exact g.readLt
      · exact g.writeLt
      · intro j hj
        have hj2 : s.connectHandler = some j := hj
        exact g.connLt j hj2
      · intro j hj
        rw [countRead_append, countRead_single_null]
        exact g.readOnce j hj
      · intro j hj
        rw [countWrite_append, countWrite_single_null]
        exact g.writeOnce j hj
      · rw [countConnect_append, countConnect_single_null, hcc]
        omega
      · intro _
        simp [hsOps, hro, hwo, hco]
      · simp [hsOps, hro, hwo, hco]
      · intro hpos
        simp [hsOps, hro, hwo, hco] at hpos
      · intro hh
        simp at hh
      · intro hh
        simp at hh
      · rw [hro]
        simp
      · rw [hwo]
        simp
      · intro j
        rw [countRead_append, countRead_single_null]
        exact g.countReadLe j
      · intro j
        rw [countWrite_append, countWrite_single_null]
        exact g.countWriteLe j

/-- `ReadEnd` stays away from `Init` and `Connecting`. -/
theorem readEnd_ne {x : FlowState} (h1 : x ≠ FlowState.Init)
    (h2 : x ≠ FlowState.Connecting) :
    x.readEnd ≠ FlowState.Init ∧ x.readEnd ≠ FlowState.Connecting := by
  cases x <;> simp_all [FlowState.readEnd]

/-- `WriteEnd` stays away from `Init` and `Connecting`. -/
theorem writeEnd_ne {x : FlowState} (h1 : x ≠ FlowState.Init)
    (h2 : x ≠ FlowState.Connecting) :
    x.writeEnd ≠ FlowState.Init ∧ x.writeEnd ≠ FlowState.Connecting := by
  cases x <;> simp_all [FlowState.writeEnd]

/-- Variant of `good_congr` that allows the runloop queue to change, for
states outside `Init` and `Connecting`. -/
theorem good_congr_posted {τ : Type} {s s2 : Flow τ} (g : GoodState s)
    (hev : s2.events = s.events) (hrh : s2.readHandler = s.readHandler)
    (hwh : s2.writeHandler = s.writeHandler)
    (hch : s2.connectHandler = s.connectHandler)
    (hfr : s.fresh ≤ s2.fresh) (hro : s2.readOps = s.readOps)
    (hwo : s2.writeOps = s.writeOps) (hco : s2.connectOp = s.connectOp)
    (hsm : s2.sm = s.sm) (h1 : s.sm ≠ FlowState.Init)
    (h2 : s.sm ≠ FlowState.Connecting) : GoodState s2 := by
  have hhs : hsOps s2 = hsOps s := by
    simp [hsOps, hro, hwo, hco]
  constructor
  · intro e he j hj
    rw [hev] at he
    exact lt_of_lt_of_le (g.evIdsLt e he j hj) hfr
  · intro j hj
    rw [hrh] at hj
    exact lt_of_lt_of_le (g.readLt j hj) hfr
  · intro j hj
    rw [hwh] at hj
    exact lt_of_lt_of_le (g.writeLt j hj) hfr
  · intro j hj
    rw [hch] at hj
    exact lt_of_lt_of_le (g.connLt j hj) hfr
  · intro j hj
    rw [hrh] at hj
    rw [hev]
    exact g.readOnce j hj
  · intro j hj
    rw [hwh] at hj
    rw [hev]
    exact g.writeOnce j hj
  · rw [hev]
    exact g.connCount
  · rw [hev, hhs]
    exact g.connQuiescent
  · rw [hhs]
    exact g.hsLe
  · intro hpos
    rw [hhs] at hpos
    exact (h2 (g.hsConnecting hpos)).elim
  · intro hh
    rw [hsm] at hh
    exact absurd hh h1
  · intro hh
    rw [hsm] at hh
    exact absurd hh h2
  · rw [hro]
    exact g.readsLe
  · rw [hwo]
    exact g.writesLe
  · intro j
    rw [hev]
    exact g.countReadLe j
  · intro j
    rw [hev]
    exact g.countWriteLe j

/-- Popping the inner connect operation preserves the invariant. -/
theorem good_pop_connect {τ : Type} {s : Flow τ} (g : GoodState s) :
    GoodState { s with connectOp := none } := by
  have hhs : hsOps { s with connectOp := none } ≤ hsOps s := by
    simp [hsOps]
  constructor
  · exact g.evIdsLt
  · exact g.readLt
  · exact g.writeLt
  · exact g.connLt
  · exact g.readOnce
  · exact g.writeOnce
  · exact g.connCount
  · intro hcc
    have := g.connQuiescent hcc
    omega
  · exact le_trans hhs g.hsLe
  · intro hpos
    exact g.hsConnecting (lt_of_lt_of_le hpos hhs)
  · intro hh
    obtain ⟨hev, hro2, hwo2, hco2, hpo2, hrh2, hwh2, hch2⟩ := g.initClean hh
    exact ⟨hev, hro2, hwo2, rfl, hpo2, hrh2, hwh2, hch2⟩
  · intro hh
    exact g.hsClean hh
  · exact g.readsLe
  · exact g.writesLe
  · exact g.countReadLe
  · exact g.countWriteLe

/-- Popping an inner read operation preserves the invariant. -/
theorem good_erase_read {τ : Type} {s : Flow τ} (g : GoodState s) (i : Nat) :
    GoodState { s with readOps := s.readOps.eraseIdx i } := by
  have hsub := List.eraseIdx_sublist s.readOps i
  have hhs : hsOps { s with readOps := s.readOps.eraseIdx i } ≤ hsOps s := by
    have := (hsub.filter (fun op => op.isHs)).length_le
    simp only [hsOps]
    omega
  constructor
  · exact g.evIdsLt
  · exact g.readLt
  · exact g.writeLt
  · exact g.connLt
  · exact g.readOnce
  · exact g.writeOnce
  · exact g.connCount
  · intro hcc
    have := g.connQuiescent hcc
    omega
  · exact le_trans hhs g.hsLe
  · intro hpos
    exact g.hsConnecting (lt_of_lt_of_le hpos hhs)
  · intro hh
    obtain ⟨hev, hro2, hwo2, hco2, hpo2, hrh2, hwh2, hch2⟩ := g.initClean hh
    refine ⟨hev, ?_, hwo2, hco2, hpo2, hrh2, hwh2, hch2⟩
    rw [hro2]
    simp [List.eraseIdx]
  · intro hh
    obtain ⟨hpo2, hrh2, hwh2, hallr, hallw⟩ := g.hsClean hh
    exact ⟨hpo2, hrh2, hwh2, fun op hop => hallr op (hsub.subset hop), hallw⟩
  · exact le_trans hsub.length_le g.readsLe
  · exact g.writesLe
  · exact g.countReadLe
  · exact g.countWriteLe

/-- Popping an inner write operation preserves the invariant. -/
theorem good_erase_write {τ : Type} {s : Flow τ} (g : GoodState s) (i : Nat) :
    GoodState { s with writeOps := s.writeOps.eraseIdx i } := by
  have hsub := List.eraseIdx_sublist s.writeOps i
  have hhs : hsOps { s with writeOps := s.writeOps.eraseIdx i } ≤ hsOps s := by
    have := (hsub.filter (fun op => op.isHs)).length_le
    simp only [hsOps]
    omega
  constructor
  · exact g.evIdsLt
  · exact g.readLt
  · exact g.writeLt
  · exact g.connLt
  · exact g.readOnce
  · exact g.writeOnce
  · exact g.connCount
  · intro hcc
    have := g.connQuiescent hcc
    omega
  · exact le_trans hhs g.hsLe
  · intro hpos
    exact g.hsConnecting (lt_of_lt_of_le hpos hhs)
  · intro hh
    obtain ⟨hev, hro2, hwo2, hco2, hpo2, hrh2, hwh2, hch2⟩ := g.initClean hh
    refine ⟨hev, hro2, ?_, hco2, hpo2, hrh2, hwh2, hch2⟩
    rw [hwo2]
    simp [List.eraseIdx]
  · intro hh
    obtain ⟨hpo2, hrh2, hwh2, hallr, hallw⟩ := g.hsClean hh
    exact ⟨hpo2, hrh2, hwh2, hallr, fun op hop => hallw op (hsub.subset hop)⟩
  · exact g.readsLe
  · exact le_trans hsub.length_le g.writesLe
  · exact g.countReadLe
  · exact g.countWriteLe

/-- Marking the machine `Errored` preserves the invariant when no handshake
operation is outstanding. -/
theorem good_set_errored {τ : Type} {s : Flow τ} (g : GoodState s)
    (hq : hsOps s = 0) : GoodState { s with sm := FlowState.Errored } := by
  have hhs : hsOps { s with sm := FlowState.Errored } = hsOps s := by
    simp [hsOps]
  constructor
  · exact g.evIdsLt
  · exact g.readLt
  · exact g.writeLt
  · exact g.connLt
  · exact g.readOnce
  · exact g.writeOnce
  · exact g.connCount
  · intro _
    rw [hhs, hq]
  · rw [hhs]
    exact g.hsLe
  · intro hpos
    rw [hhs, hq] at hpos
    omega
  · intro hh
    simp at hh
  · intro hh
    simp at hh
  · exact g.readsLe
  · exact g.writesLe
  · exact g.countReadLe
  · exact g.countWriteLe

/-- Invoking the connect handler preserves the invariant when no connect
invocation was recorded before, no handshake operation is outstanding, and
the machine is past `Init`. -/
theorem good_invokeConnect {τ : Type} {s : Flow τ} (g : GoodState s)
    (e : Option ECode) (hcc : countConnect s.events = 0) (hq : hsOps s = 0)
    (hni : s.sm ≠ FlowState.Init) : GoodState (invokeConnect s e) := by
  rcases invokeConnect_char s e with ⟨h2, hch, hic⟩ | ⟨hch, hic⟩ <;> rw [hic]
  · constructor
    · intro e2 he2 j hj
      rcases List.mem_append.mp he2 with h3 | h3
      · exact g.evIdsLt e2 h3 j hj
      · have he3 : e2 = Ev.invConnect h2 e (some h2) := by simpa using h3
        rw [he3] at hj
        have hj2 : j = h2 := by simpa [evId] using hj.symm
        rw [hj2]
        exact g.connLt h2 hch
    · exact g.readLt
    · exact g.writeLt
    · exact g.connLt
    · intro j hj
      rw [countRead_append, countRead_single_connect]
      exact g.readOnce j hj
    · intro j hj
      rw [countWrite_append, countWrite_single_connect]
      exact g.writeOnce j hj
    · rw [countConnect_append, countConnect_single_connect, hcc]
    · intro _
      simpa [hsOps] using hq
    · have := g.hsLe
      simpa [hsOps] using this
    · intro hpos
      have hpos2 : 0 < hsOps s := by simpa [hsOps] using hpos
      rw [hq] at hpos2
      omega
    · intro hh
      exact absurd hh hni
    · intro hh
      exact g.hsClean hh
    · exact g.readsLe
    · exact g.writesLe
    · intro j
      rw [countRead_append, countRead_single_connect]
      exact g.countReadLe j
    · intro j
      rw [countWrite_append, countWrite_single_connect]
      exact g.countWriteLe j
  · constructor
    · intro e2 he2 j hj
      rcases List.mem_append.mp he2 with h3 | h3
      · exact g.evIdsLt e2 h3 j hj
      · have he3 : e2 = Ev.nullInvoke := by simpa using h3
        rw [he3] at hj
        simp [evId] at hj
    · exact g.readLt
    · exact g.writeLt
    · exact g.connLt
    · intro j hj
      rw [countRead_append, countRead_single_null]
      exact g.readOnce j hj
    · intro j hj
      rw [countWrite_append, countWrite_single_null]
      exact g.writeOnce j hj
    · rw [countConnect_append, countConnect_single_null, hcc]
      omega
    · intro _
      simpa [hsOps] using hq
    · have := g.hsLe
      simpa [hsOps] using this
    · intro hpos
      have hpos2 : 0 < hsOps s := by simpa [hsOps] using hpos
      rw [hq] at hpos2
      omega
    · intro hh
      exact absurd hh hni
    · intro hh
      exact g.hsClean hh
    · exact g.readsLe
    · exact g.writesLe
    · intro j
      rw [countRead_append, countRead_single_null]
      exact g.countReadLe j
    · intro j
      rw [countWrite_append, countWrite_single_null]
      exact g.countWriteLe j

/-- Arming a fresh user read handler preserves the invariant. -/
theorem good_arm_read {τ : Type} {s : Flow τ} (g : GoodState s)
    (hsm : s.sm = FlowState.Established ∨ s.sm = FlowState.Writing) :
    GoodState { s with
      readCancelable := s.fresh, readHandler := some (s.fresh + 1),
      fresh := s.fresh + 2, sm := s.sm.readBegin } := by
  have hq : hsOps s = 0 := by
    rcases Nat.eq_zero_or_pos (hsOps s) with h0 | h0
    · exact h0
    · have := g.hsConnecting h0
      rcases hsm with h | h <;> rw [h] at this <;> cases this
  constructor <;> dsimp only
  · intro e he j hj
    have := g.evIdsLt e he j hj
    omega
  · intro j hj
    have : j = s.fresh + 1 := by simpa using hj.symm
    omega
  · intro j hj
    have := g.writeLt j hj
    omega
  · intro j hj
    have := g.connLt j hj
    omega
  · intro j hj
    have hj2 : j = s.fresh + 1 := by simpa using hj.symm
    rw [hj2]
    exact countRead_zero_of_ge s.events s.fresh (s.fresh + 1) g.evIdsLt
      (by omega)
  · exact g.writeOnce
  · exact g.connCount
  · intro hcc
    have := g.connQuiescent hcc
    simpa [hsOps] using this
  · have := g.hsLe
    simpa [hsOps] using this
  · intro hpos
    have hpos2 : 0 < hsOps s := by simpa [hsOps] using hpos
    rw [hq] at hpos2
    omega
  · intro hh
    rcases hsm with h | h <;> rw [h] at hh <;> simp [FlowState.readBegin] at hh
  · intro hh
    rcases hsm with h | h <;> rw [h] at hh <;> simp [FlowState.readBegin] at hh
  · exact g.readsLe
  · exact g.writesLe
  · exact g.countReadLe
  · exact g.countWriteLe

/-- Arming a fresh user write handler preserves the invariant. -/
theorem good_arm_write {τ : Type} (TM : TunnelModel τ) (buf : Buffer)
    {s : Flow τ} (g : GoodState s)
    (hsm : s.sm = FlowState.Established ∨ s.sm = FlowState.Reading) :
    GoodState { s with
      writeCancelable := s.fresh, writeHandler := some (s.fresh + 1),
      fresh := s.fresh + 2, sm := s.sm.writeBegin,
      tunnel := TM.writePlainTextData buf s.tunnel } := by
  have hq : hsOps s = 0 := by
    rcases Nat.eq_zero_or_pos (hsOps s) with h0 | h0
    · exact h0
    · have := g.hsConnecting h0
      rcases hsm with h | h <;> rw [h] at this <;> cases this
  constructor <;> dsimp only
  · intro e he j hj
    have := g.evIdsLt e he j hj
    omega
  · intro j hj
    have := g.readLt j hj
    omega
  · intro j hj
    have : j = s.fresh + 1 := by simpa using hj.symm
    omega
  · intro j hj
    have := g.connLt j hj
    omega
  · exact g.readOnce
  · intro j hj
    have hj2 : j = s.fresh + 1 := by simpa using hj.symm
    rw [hj2]
    exact countWrite_zero_of_ge s.events s.fresh (s.fresh + 1) g.evIdsLt
      (by omega)
  · exact g.connCount
  · intro hcc
    have := g.connQuiescent hcc
    simpa [hsOps] using this
  · have := g.hsLe
    simpa [hsOps] using this
  · intro hpos
    have hpos2 : 0 < hsOps s := by simpa [hsOps] using hpos
    rw [hq] at hpos2
    omega
  · intro hh
    rcases hsm with h | h <;> rw [h] at hh <;> simp [FlowState.writeBegin] at hh
  · intro hh
    rcases hsm with h | h <;> rw [h] at hh <;> simp [FlowState.writeBegin] at hh
  · exact g.readsLe
  · exact g.writesLe
  · exact g.countReadLe
  · exact g.countWriteLe

/-- A legal user `Read` preserves the invariant. -/
theorem good_readCall {τ : Type} (TM : TunnelModel τ) {s : Flow τ}
    (g : GoodState s)
    (hsm : s.sm = FlowState.Established ∨ s.sm = FlowState.Writing) :
    GoodState (ReadCall TM s) := by
  unfold ReadCall
  refine good_process TM (good_arm_read g hsm) ?_ ?_ <;>
    rcases hsm with h | h <;> simp [h, FlowState.readBegin]

/-- A legal user `Write` preserves the invariant. -/
theorem good_writeCall {τ : Type} (TM : TunnelModel τ) (buf : Buffer)
    {s : Flow τ} (g : GoodState s)
    (hsm : s.sm = FlowState.Established ∨ s.sm = FlowState.Reading) :
    GoodState (WriteCall TM buf s) := by
  unfold WriteCall
  refine good_process TM (good_arm_write TM buf g hsm) ?_ ?_ <;>
    rcases hsm with h | h <;> simp [h, FlowState.writeBegin]

/-- `Connect` from the pristine `Init` state preserves the invariant. -/
theorem good_connectCall {τ : Type} (TM : TunnelModel τ) (host : Nat)
    {s : Flow τ} (g : GoodState s) (hsm : s.sm = FlowState.Init) :
    GoodState (ConnectCall TM host s) := by
  obtain ⟨hev, hro2, hwo2, hco2, hpo2, hrh2, hwh2, hch2⟩ := g.initClean hsm
  unfold ConnectCall
  constructor <;> dsimp only
  · intro e he j hj
    rw [hev] at he
    exact absurd he (List.not_mem_nil e)
  · intro j hj
    rw [hrh2] at hj
    cases hj
  · intro j hj
    rw [hwh2] at hj
    cases hj
  · intro j hj
    have : j = s.fresh + 1 := by simpa using hj.symm
    omega
  · intro j hj
    rw [hrh2] at hj
    cases hj
  · intro j hj
    rw [hwh2] at hj
    cases hj
  · rw [hev]
    simp [countConnect]
  · intro hcc
    rw [hev] at hcc
    simp [countConnect] at hcc
  · simp [hsOps, hro2, hwo2]
  · intro _
    rw [hsm]
    rfl
  · intro hh
    rw [hsm] at hh
    simp [FlowState.connectBegin] at hh
  · intro _
    refine ⟨hpo2, hrh2, hwh2, ?_, ?_⟩
    · rw [hro2]
      simp
    · rw [hwo2]
      simp
  · rw [hro2]
    simp
  · rw [hwo2]
    simp
  · intro j
    rw [hev]
    simp [countRead]
  · intro j
    rw [hev]
    simp [countWrite]

/-- One runloop turn preserves the invariant. -/
theorem good_runTask {τ : Type} {s : Flow τ} (g : GoodState s) :
    GoodState (RunTask s) := by
  rcases runTask_char s with ⟨hp, h⟩ | ⟨b, cap, rest, hp, hcase⟩ |
    ⟨cap, rest, hp, hcase⟩
  · rw [h]
    exact g
  · have h1 : s.sm ≠ FlowState.Init := by
      intro hh
      have := (g.initClean hh).2.2.2.2.1
      rw [hp] at this
      cases this
    have h2 : s.sm ≠ FlowState.Connecting := by
      intro hh
      have := (g.hsClean hh).1
      rw [hp] at this
      cases this
    rcases hcase with ⟨hc, h⟩ | ⟨hc, ⟨hid, hr, h⟩ | ⟨hr, h⟩⟩
    · rw [h]
      exact good_congr_posted g rfl rfl rfl rfl le_rfl rfl rfl rfl rfl h1 h2
    · rw [h]
      constructor <;> dsimp only
      · intro e2 he2 j hj
        rcases List.mem_append.mp he2 with h3 | h3
        · exact g.evIdsLt e2 h3 j hj
        · have he3 : e2 = Ev.invRead hid b none none := by simpa using h3
          rw [he3] at hj
          have hj2 : j = hid := by simpa [evId] using hj.symm
          rw [hj2]
          exact g.readLt hid hr
      · intro j hj
        cases hj
      · exact g.writeLt
      · exact g.connLt
      · intro j hj
        cases hj
      · intro j hj
        rw [countWrite_append, countWrite_single_read]
        exact g.writeOnce j hj
      · rw [countConnect_append, countConnect_single_read]
        simpa using g.connCount
      · intro hcc
        rw [countConnect_append, countConnect_single_read] at hcc
        have := g.connQuiescent (by simpa using hcc)
        simpa [hsOps] using this
      · have := g.hsLe
        simpa [hsOps] using this
      · intro hpos
        have hpos2 : 0 < hsOps s := by simpa [hsOps] using hpos
        exact (h2 (g.hsConnecting hpos2)).elim
      · intro hh
        exact absurd hh (readEnd_ne h1 h2).1
      · intro hh
        exact absurd hh (readEnd_ne h1 h2).2
      · exact g.readsLe
      · exact g.writesLe
      · intro j
        rw [countRead_append, countRead_single_read]
        by_cases hji : hid = j
        · rw [hji] at hr
          rw [g.readOnce j hr]
          simp [hji]
        · simp [hji]
          exact g.countReadLe j
      · intro j
        rw [countWrite_append, countWrite_single_read]
        exact g.countWriteLe j
    · rw [h]
      constructor <;> dsimp only
      · intro e2 he2 j hj
        rcases List.mem_append.mp he2 with h3 | h3
        · exact g.evIdsLt e2 h3 j hj
        · have he3 : e2 = Ev.nullInvoke := by simpa using h3
          rw [he3] at hj
          simp [evId] at hj
      · exact g.readLt
      · exact g.writeLt
      · exact g.connLt
      · intro j hj
        rw [countRead_append, countRead_single_null]
        exact g.readOnce j hj
      · intro j hj
        rw [countWrite_append, countWrite_single_null]
        exact g.writeOnce j hj
      · rw [countConnect_append, countConnect_single_null]
        simpa using g.connCount
      · intro hcc
        rw [countConnect_append, countConnect_single_null] at hcc
        have := g.connQuiescent (by simpa using hcc)
        simpa [hsOps] using this
      · have := g.hsLe
        simpa [hsOps] using this
      · intro hpos
        have hpos2 : 0 < hsOps s := by simpa [hsOps] using hpos
        exact (h2 (g.hsConnecting hpos2)).elim
      · intro hh
        exact absurd hh (readEnd_ne h1 h2).1
      · intro hh
        exact absurd hh (readEnd_ne h1 h2).2
      · exact g.readsLe
      · exact g.writesLe
      · intro j
        rw [countRead_append, countRead_single_null]
        exact g.countReadLe j
      · intro j
        rw [countWrite_append, countWrite_single_null]
        exact g.countWriteLe j
  · have h1 : s.sm ≠ FlowState.Init := by
      intro hh
      have := (g.initClean hh).2.2.2.2.1
      rw [hp] at this
      cases this
    have h2 : s.sm ≠ FlowState.Connecting := by
      intro hh
      have := (g.hsClean hh).1
      rw [hp] at this
      cases this
    rcases hcase with ⟨hc, h⟩ | ⟨hc, ⟨hid, hw, h⟩ | ⟨hw, h⟩⟩
    · rw [h]
      exact good_congr_posted g rfl rfl rfl rfl le_rfl rfl rfl rfl rfl h1 h2
    · rw [h]
      constructor <;> dsimp only
      · intro e2 he2 j hj
        rcases List.mem_append.mp he2 with h3 | h3
        · exact g.evIdsLt e2 h3 j hj
        · have he3 : e2 = Ev.invWrite hid none none := by simpa using h3
          rw [he3] at hj
          have hj2 : j = hid := by simpa [evId] using hj.symm
          rw [hj2]
          exact g.writeLt hid hw
      · exact g.readLt
      · intro j hj
        cases hj
      · exact g.connLt
      · intro j hj
        rw [countRead_append, countRead_single_write]
        exact g.readOnce j hj
      · intro j hj
        cases hj
      · rw [countConnect_append, countConnect_single_write]
        simpa using g.connCount
      · intro hcc
        rw [countConnect_append, countConnect_single_write] at hcc
        have := g.connQuiescent (by simpa using hcc)
        simpa [hsOps] using this
      · have := g.hsLe
        simpa [hsOps] using this
      · intro hpos
        have hpos2 : 0 < hsOps s := by simpa [hsOps] using hpos
        exact (h2 (g.hsConnecting hpos2)).elim
      · intro hh
        exact absurd hh (writeEnd_ne h1 h2).1
      · intro hh
        exact absurd hh (writeEnd_ne h1 h2).2
      · exact g.readsLe
      · exact g.writesLe
      · intro j
        rw [countRead_append, countRead_single_write]
        exact g.countReadLe j
      · intro j
        rw [countWrite_append, countWrite_single_write]
        by_cases hji : hid = j
        · rw [hji] at hw
          rw [g.writeOnce j hw]
          simp [hji]
        · simp [hji]
          exact g.countWriteLe j
    · rw [h]
      constructor <;> dsimp only
      · intro e2 he2 j hj
        rcases List.mem_append.mp he2 with h3 | h3
        · exact g.evIdsLt e2 h3 j hj
        · have he3 : e2 = Ev.nullInvoke := by simpa using h3
          rw [he3] at hj
          simp [evId] at hj
      · exact g.readLt
      · exact g.writeLt
      · exact g.connLt
      · intro j hj
        rw [countRead_append, countRead_single_null]
        exact g.readOnce j hj
      · intro j hj
        rw [countWrite_append, countWrite_single_null]
        exact g.writeOnce j hj
      · rw [countConnect_append, countConnect_single_null]
        simpa using g.connCount
      · intro hcc
        rw [countConnect_append, countConnect_single_null] at hcc
        have := g.connQuiescent (by simpa using hcc)
        simpa [hsOps] using this
      · have := g.hsLe
        simpa [hsOps] using this
      · intro hpos
        have hpos2 : 0 < hsOps s := by simpa [hsOps] using hpos
        exact (h2 (g.hsConnecting hpos2)).elim
      · intro hh
        exact absurd hh (writeEnd_ne h1 h2).1
      · intro hh
        exact absurd hh (writeEnd_ne h1 h2).2
      · exact g.readsLe
      · exact g.writesLe
      · intro j
        rw [countRead_append, countRead_single_null]
        exact g.countReadLe j
      · intro j
        rw [countWrite_append, countWrite_single_null]
        exact g.countWriteLe j

/-- The steady inner-read completion body preserves the invariant outside
the handshake phase. -/
theorem good_onStReadDone {τ : Type} (TM : TunnelModel τ) (cap : Token)
    (b : Buffer) (e : Option ECode) {s : Flow τ} (g : GoodState s)
    (h1 : s.sm ≠ FlowState.Init) (h2 : s.sm ≠ FlowState.Connecting) :
    GoodState (OnStReadDone TM cap b e s) := by
  unfold OnStReadDone
  cases hc : s.canceled.contains cap with
  | true =>
      simp only [hc, if_true]
      exact g
  | false =>
      simp only [hc, Bool.false_eq_true, if_false]
      cases e with
      | some err =>
          dsimp only
          rcases reportError_char s err true with ⟨hr, hw, hrep⟩ |
            ⟨hid, hr, hrep⟩ | ⟨hid, hw, hrep⟩ <;> rw [hrep]
          · exact good_set_pendingError g (some err)
          · exact good_set_errorReported (good_readDelivered g hr h1 h2 err) true
          · exact good_set_errorReported (good_writeDelivered g hw h1 h2 err) true
      | none =>
          exact good_process TM
            (good_congr g rfl rfl rfl rfl le_rfl rfl rfl rfl rfl rfl) h1 h2

/-- The steady inner-write completion body preserves the invariant outside
the handshake phase. -/
theorem good_onStWriteDone {τ : Type} (TM : TunnelModel τ) (cap : Token)
    (e : Option ECode) {s : Flow τ} (g : GoodState s)
    (h1 : s.sm ≠ FlowState.Init) (h2 : s.sm ≠ FlowState.Connecting) :
    GoodState (OnStWriteDone TM cap e s) := by
  unfold OnStWriteDone
  cases hc : s.canceled.contains cap with
  | true =>
      simp only [hc, if_true]
      exact g
  | false =>
      simp only [hc, Bool.false_eq_true, if_false]
      cases e with
      | some err =>
          dsimp only
          rcases reportError_char s err false with ⟨hr, hw, hrep⟩ |
            ⟨hid, hr, hrep⟩ | ⟨hid, hw, hrep⟩ <;> rw [hrep]
          · exact good_set_pendingError g (some err)
          · exact good_set_errorReported (good_readDelivered g hr h1 h2 err) true
          · exact good_set_errorReported (good_writeDelivered g hw h1 h2 err) true
      | none =>
          exact good_process TM g h1 h2

/-- The handshake inner-read completion body preserves the invariant. -/
theorem good_onHsReadDone {τ : Type} (TM : TunnelModel τ) (cap : Token)
    (b : Buffer) (e : Option ECode) {s : Flow τ} (g : GoodState s)
    (hsm : s.sm = FlowState.Connecting) (hro : s.readOps = [])
    (hwo : s.writeOps = []) (hco : s.connectOp = none)
    (hcc : countConnect s.events = 0) : GoodState (OnHsReadDone TM cap b e s) := by
  have hq : hsOps s = 0 := by
    simp [hsOps, hro, hwo, hco]
  unfold OnHsReadDone
  cases hc : s.canceled.contains cap with
  | true =>
      simp only [hc, if_true]
      exact g
  | false =>
      simp only [hc, Bool.false_eq_true, if_false]
      cases e with
      | some err =>
          exact good_invokeConnect (good_set_errored g hq) (some err) hcc
            (by simpa [hsOps] using hq) (by simp)
      | none =>
          exact good_handShake TM
            (good_congr g rfl rfl rfl rfl le_rfl rfl rfl rfl rfl rfl)
            hsm hro hwo hco hcc

/-- The handshake inner-write completion body preserves the invariant. -/
theorem good_onHsWriteDone {τ : Type} (TM : TunnelModel τ) (cap : Token)
    (e : Option ECode) {s : Flow τ} (g : GoodState s)
    (hsm : s.sm = FlowState.Connecting) (hro : s.readOps = [])
    (hwo : s.writeOps = []) (hco : s.connectOp = none)
    (hcc : countConnect s.events = 0) : GoodState (OnHsWriteDone TM cap e s) := by
  have hq : hsOps s = 0 := by
    simp [hsOps, hro, hwo, hco]
  unfold OnHsWriteDone
  cases hc : s.canceled.contains cap with
  | true =>
      simp only [hc, if_true]
      exact g
  | false =>
      simp only [hc, Bool.false_eq_true, if_false]
      cases e with
      | some err =>
          exact good_invokeConnect (good_set_errored g hq) (some err) hcc
            (by simpa [hsOps] using hq) (by simp)
      | none =>
          exact good_handShake TM g hsm hro hwo hco hcc

/-- The inner-connect completion body preserves the invariant. -/
theorem good_onConnectDone {τ : Type} (TM : TunnelModel τ) (cap : Token)
    (e : Option ECode) {s : Flow τ} (g : GoodState s)
    (hsm : s.sm = FlowState.Connecting) (hro : s.readOps = [])
    (hwo : s.writeOps = []) (hco : s.connectOp = none)
    (hcc : countConnect s.events = 0) : GoodState (OnConnectDone TM cap e s) := by
  have hq : hsOps s = 0 := by
    simp [hsOps, hro, hwo, hco]
  unfold OnConnectDone
  cases hc : s.canceled.contains cap with
  | true =>
      simp only [hc, if_true]
      exact g
  | false =>
      simp only [hc, Bool.false_eq_true, if_false]
      cases e with
      | some err =>
          exact good_invokeConnect g (some err) hcc hq (by rw [hsm]; simp)
      | none =>
          exact good_handShake TM g hsm hro hwo hco hcc

/-- Every step of the system preserves the invariant. -/
theorem good_exec1 {τ : Type} (TM : TunnelModel τ) (a : Action) {s : Flow τ}
    (g : GoodState s) : GoodState (exec1 TM a s) := by
  cases a with
  | uConnect host =>
      by_cases hsm : s.sm = FlowState.Init
      · have hb : (s.sm == FlowState.Init) = true := by simp [hsm]
        simp only [exec1, hb, if_true]
        exact good_connectCall TM host g hsm
      · have hb : (s.sm == FlowState.Init) = false := by simp [hsm]
        simp only [exec1, hb, Bool.false_eq_true, if_false]
        exact g
  | uRead =>
      cases hl : readLegal s with
      | false =>
          simp only [exec1, hl, Bool.false_eq_true, if_false]
          exact g
      | true =>
          simp only [exec1, hl, if_true]
          have hsm : s.sm = FlowState.Established ∨ s.sm = FlowState.Writing := by
            simp only [readLegal, Bool.and_eq_true, Bool.or_eq_true, beq_iff_eq]
              at hl
            exact hl.2
          exact good_readCall TM g hsm
  | uWrite buf =>
      cases hl : writeLegal s with
      | false =>
          simp only [exec1, hl, Bool.false_eq_true, if_false]
          exact g
      | true =>
          simp only [exec1, hl, if_true]
          have hsm : s.sm = FlowState.Established ∨ s.sm = FlowState.Reading := by
            simp only [writeLegal, Bool.and_eq_true, Bool.or_eq_true, beq_iff_eq]
              at hl
            exact hl.2
          exact good_writeCall TM buf g hsm
  | uCloseWrite =>
      exact g
  | uCancel t =>
      exact good_cancel g t
  | runTask =>
      exact good_runTask g
  | completeConnect e =>
      cases hop : s.connectOp with
      | none =>
          simp only [exec1, hop]
          exact g
      | some cap =>
          simp only [exec1, hop]
          have hpos : 0 < hsOps s := by
            simp [hsOps, hop]
          have hsm := g.hsConnecting hpos
          obtain ⟨hpo, hrh, hwh, hallr, hallw⟩ := g.hsClean hsm
          have hcc : countConnect s.events = 0 := by
            rcases Nat.eq_zero_or_pos (countConnect s.events) with h0 | h0
            · exact h0
            · have := g.connQuiescent h0
              omega
          have hfil : (s.readOps.filter (fun op => op.isHs)).length = 0 ∧
              (s.writeOps.filter (fun op => op.isHs)).length = 0 := by
            have := g.hsLe
            simp only [hsOps, hop, Option.isSome_some, if_pos] at this
            omega
          have hro : s.readOps = [] := filter_nil_of_all _ _ hallr hfil.1
          have hwo : s.writeOps = [] := filter_nil_of_all _ _ hallw hfil.2
          exact good_onConnectDone TM cap e (good_pop_connect g) hsm hro hwo
            rfl hcc
  | completeRead i b e =>
      cases hop : s.readOps.get? i with
      | none =>
          simp only [exec1, hop]
          exact g
      | some op =>
          simp only [exec1, hop]
          cases hguard : e.isNone && decide (op.size < b.length) with
          | true =>
              simp only [hguard, if_true]
              exact g
          | false =>
              simp only [hguard, Bool.false_eq_true, if_false]
              have hmem : op ∈ s.readOps := List.get?_mem hop
              cases hhs : op.isHs with
              | true =>
                  simp only [hhs, if_true]
                  have hpos : 0 < hsOps s := by
                    have hmf : op ∈ s.readOps.filter (fun op => op.isHs) :=
                      List.mem_filter.mpr ⟨hmem, by rw [hhs]⟩
                    have := List.length_pos.mpr (List.ne_nil_of_mem hmf)
                    simp only [hsOps]
                    omega
                  have hsm := g.hsConnecting hpos
                  obtain ⟨hpo, hrh, hwh, hallr, hallw⟩ := g.hsClean hsm
                  have hcc : countConnect s.events = 0 := by
                    rcases Nat.eq_zero_or_pos (countConnect s.events) with h0 | h0
                    · exact h0
                    · have := g.connQuiescent h0
                      omega
                  have hco : s.connectOp = none := by
                    cases hco2 : s.connectOp with
                    | none => rfl
                    | some c =>
                        exfalso
                        have hmf : op ∈ s.readOps.filter (fun op => op.isHs) :=
                          List.mem_filter.mpr ⟨hmem, by rw [hhs]⟩
                        have hl1 := List.length_pos.mpr (List.ne_nil_of_mem hmf)
                        have := g.hsLe
                        simp only [hsOps, hco2, Option.isSome_some, if_pos]
                          at this
                        omega
                  have hwfil : (s.writeOps.filter (fun op => op.isHs)).length = 0 := by
                    have hmf : op ∈ s.readOps.filter (fun op => op.isHs) :=
                      List.mem_filter.mpr ⟨hmem, by rw [hhs]⟩
                    have hl1 := List.length_pos.mpr (List.ne_nil_of_mem hmf)
                    have := g.hsLe
                    simp only [hsOps, hco, Option.isSome_none] at this
                    omega
                  have hwo : s.writeOps = [] := filter_nil_of_all _ _ hallw hwfil
                  have hilt : i < s.readOps.length := (List.get?_eq_some.mp hop).1
                  have hro0 : s.readOps.eraseIdx i = [] := by
                    have hle := g.readsLe
                    have := List.length_eraseIdx_of_lt hilt
                    exact List.eq_nil_of_length_eq_zero (by omega)
                  refine good_onHsReadDone TM op.cap b e (good_erase_read g i)
                    hsm ?_ hwo hco hcc
                  exact hro0
              | false =>
                  simp only [hhs, Bool.false_eq_true, if_false]
                  have h1 : s.sm ≠ FlowState.Init := by
                    intro hh
                    have := (g.initClean hh).2.1
                    rw [this] at hmem
                    exact absurd hmem (List.not_mem_nil op)
                  have h2 : s.sm ≠ FlowState.Connecting := by
                    intro hh
                    have := (g.hsClean hh).2.2.2.1 op hmem
                    rw [hhs] at this
                    cases this
                  exact good_onStReadDone TM op.cap b e (good_erase_read g i) h1 h2
  | completeWrite i e =>
      cases hop : s.writeOps.get? i with
      | none =>
          simp only [exec1, hop]
          exact g
      | some op =>
          simp only [exec1, hop]
          have hmem : op ∈ s.writeOps := List.get?_mem hop
          cases hhs : op.isHs with
          | true =>
              simp only [hhs, if_true]
              have hpos : 0 < hsOps s := by
                have hmf : op ∈ s.writeOps.filter (fun op => op.isHs) :=
                  List.mem_filter.mpr ⟨hmem, by rw [hhs]⟩
                have := List.length_pos.mpr (List.ne_nil_of_mem hmf)
                simp only [hsOps]
                omega
              have hsm := g.hsConnecting hpos
              obtain ⟨hpo, hrh, hwh, hallr, hallw⟩ := g.hsClean hsm
              have hcc : countConnect s.events = 0 := by
                rcases Nat.eq_zero_or_pos (countConnect s.events) with h0 | h0
                · exact h0
                · have := g.connQuiescent h0
                  omega
              have hco : s.connectOp = none := by
                cases hco2 : s.connectOp with
                | none => rfl
                | some c =>
                    exfalso
                    have hmf : op ∈ s.writeOps.filter (fun op => op.isHs) :=
                      List.mem_filter.mpr ⟨hmem, by rw [hhs]⟩
                    have hl1 := List.length_pos.mpr (List.ne_nil_of_mem hmf)
                    have := g.hsLe
                    simp only [hsOps, hco2, Option.isSome_some, if_pos] at this
                    omega
              have hrfil : (s.readOps.filter (fun op => op.isHs)).length = 0 := by
                have hmf : op ∈ s.writeOps.filter (fun op => op.isHs) :=
                  List.mem_filter.mpr ⟨hmem, by rw [hhs]⟩
                have hl1 := List.length_pos.mpr (List.ne_nil_of_mem hmf)
                have := g.hsLe
                simp only [hsOps, hco, Option.isSome_none] at this
                omega
              have hro : s.readOps = [] := filter_nil_of_all _ _ hallr hrfil
              have hilt : i < s.writeOps.length := (List.get?_eq_some.mp hop).1
              have hwo0 : s.writeOps.eraseIdx i = [] := by
                have hle := g.writesLe
                have := List.length_eraseIdx_of_lt hilt
                exact List.eq_nil_of_length_eq_zero (by omega)
              refine good_onHsWriteDone TM op.cap e (good_erase_write g i)
                hsm hro ?_ hco hcc
              exact hwo0
          | false =>
              simp only [hhs, Bool.false_eq_true, if_false]
              have h1 : s.sm ≠ FlowState.Init := by
                intro hh
                have := (g.initClean hh).2.2.1
                rw [this] at hmem
                exact absurd hmem (List.not_mem_nil op)
              have h2 : s.sm ≠ FlowState.Connecting := by
                intro hh
                have := (g.hsClean hh).2.2.2.2 op hmem
                rw [hhs] at this
                cases this
              exact good_onStWriteDone TM op.cap e (good_erase_write g i) h1 h2

/-- The invariant holds along any action sequence. -/
theorem good_runFrom {τ : Type} (TM : TunnelModel τ) (acts : List Action)
    {s : Flow τ} (g : GoodState s) : GoodState (runFrom TM s acts) := by
  induction acts generalizing s with
  | nil => exact g
  | cons a as ih => exact ih (good_exec1 TM a g)

/-- The invariant holds in every reachable state. -/
theorem good_run {τ : Type} (TM : TunnelModel τ) (t : τ) (acts : List Action) :
    GoodState (run TM t acts) :=
  good_runFrom TM acts (good_init t)

/-- `TryReadNextHop` does not touch `error_reported_`. -/
theorem tryReadNextHop_er {τ : Type} (s : Flow τ) :
    (TryReadNextHop s).errorReported = s.errorReported := by
  rcases tryReadNextHop_char s with h | ⟨h0, h⟩ <;> rw [h]

/-- `TryWriteNextHop` does not touch `error_reported_`. -/
theorem tryWriteNextHop_er {τ : Type} (TM : TunnelModel τ) (s : Flow τ) :
    (TryWriteNextHop TM s).errorReported = s.errorReported := by
  rcases tryWriteNextHop_char TM s with h | ⟨h0, hf, h⟩ <;> rw [h]

/-- `TryRead` does not touch `error_reported_`. -/
theorem tryRead_er {τ : Type} (TM : TunnelModel τ) (s : Flow τ) :
    (TryRead TM s).errorReported = s.errorReported := by
  rcases tryRead_char TM s with h | h | ⟨h0, hr, hp, h | h⟩ <;> rw [h]
  · exact tryReadNextHop_er s
  · rw [tryReadNextHop_er]

/-- `TryWrite` does not touch `error_reported_`. -/
theorem tryWrite_er {τ : Type} (TM : TunnelModel τ) (s : Flow τ) :
    (TryWrite TM s).errorReported = s.errorReported := by
  rcases tryWrite_char TM s with h | h | ⟨hf, hw, h⟩ <;> rw [h]
  exact tryWriteNextHop_er TM s

/-- `Process` never clears `error_reported_`. -/
theorem er_process {τ : Type} (TM : TunnelModel τ) (s : Flow τ)
    (he : s.errorReported = true) : (Process TM s).errorReported = true := by
  rcases process_char TM s with h | ⟨he2, hp, h⟩ | ⟨pe, hid, he2, hp, hr, h⟩ |
    ⟨pe, hid, he2, hp, hw, h⟩ <;> rw [h]
  · exact he
  · rw [he2] at he
    cases he

/-- `invokeConnect` does not touch `error_reported_`. -/
theorem er_invokeConnect {τ : Type} (s : Flow τ) (e : Option ECode) :
    (invokeConnect s e).errorReported = s.errorReported := by
  rcases invokeConnect_char s e with ⟨h2, hch, h⟩ | ⟨hch, h⟩ <;> rw [h]

/-- `HandShake` does not touch `error_reported_`. -/
theorem er_handShake {τ : Type} (TM : TunnelModel τ) (s : Flow τ) :
    (HandShake TM s).errorReported = s.errorReported := by
  rcases handShake_char TM s with ⟨b, t1, h⟩ | ⟨t1, h⟩ | ⟨t1, h⟩ | ⟨t1, h⟩ <;>
    rw [h]
  · rw [er_invokeConnect]
  · rw [er_invokeConnect]

/-- `RunTask` does not touch `error_reported_`. -/
theorem er_runTask {τ : Type} (s : Flow τ) :
    (RunTask s).errorReported = s.errorReported := by
  rcases runTask_char s with ⟨hp, h⟩ | ⟨b, cap, rest, hp, hcase⟩ |
    ⟨cap, rest, hp, hcase⟩
  · rw [h]
  · rcases hcase with ⟨hc, h⟩ | ⟨hc, ⟨hid, hr, h⟩ | ⟨hr, h⟩⟩ <;> rw [h]
  · rcases hcase with ⟨hc, h⟩ | ⟨hc, ⟨hid, hw, h⟩ | ⟨hw, h⟩⟩ <;> rw [h]

/-- One step never clears `error_reported_`: the latch is monotone. -/
theorem er_exec1 {τ : Type} (TM : TunnelModel τ) (a : Action) (s : Flow τ)
    (he : s.errorReported = true) : (exec1 TM a s).errorReported = true := by
  cases a with
  | uConnect host =>
      by_cases hsm : s.sm = FlowState.Init
      · have hb : (s.sm == FlowState.Init) = true := by simp [hsm]
        simp only [exec1, hb, if_true]
        exact he
      · have hb : (s.sm == FlowState.Init) = false := by simp [hsm]
        simp only [exec1, hb, Bool.false_eq_true, if_false]
        exact he
  | uRead =>
      have hl : readLegal s = false := by
        simp [readLegal, he]
      simp only [exec1, hl, Bool.false_eq_true, if_false]
      exact he
  | uWrite buf =>
      have hl : writeLegal s = false := by
        simp [writeLegal, he]
      simp only [exec1, hl, Bool.false_eq_true, if_false]
      exact he
  | uCloseWrite => exact he
  | uCancel t => exact he
  | runTask =>
      rw [show exec1 TM Action.runTask s = RunTask s from rfl, er_runTask]
      exact he
  | completeConnect e =>
      cases hop : s.connectOp with
      | none =>
          simp only [exec1, hop]
          exact he
      | some cap =>
          simp only [exec1, hop]
          unfold OnConnectDone
          cases hc : s.canceled.contains cap with
          | true =>
              simp only [hc, if_true]
              exact he
          | false =>
              simp only [hc, Bool.false_eq_true, if_false]
              cases e with
              | some err =>
                  dsimp only
                  rw [er_invokeConnect]
                  exact he
              | none =>
                  dsimp only
                  rw [er_handShake]
                  exact he
  | completeRead i b e =>
      cases hop : s.readOps.get? i with
      | none =>
          simp only [exec1, hop]
          exact he
      | some op =>
          simp only [exec1, hop]
          cases hguard : e.isNone && decide (op.size < b.length) with
          | true =>
              simp only [hguard, if_true]
              exact he
          | false =>
              simp only [hguard, Bool.false_eq_true, if_false]
              cases hhs : op.isHs with
              | true =>
                  simp only [hhs, if_true]
                  unfold OnHsReadDone
                  cases hc : ({ s with readOps := s.readOps.eraseIdx i } :
                      Flow τ).canceled.contains op.cap with
                  | true =>
                      simp only [hc, if_true]
                      exact he
                  | false =>
                      simp only [hc, Bool.false_eq_true, if_false]
                      cases e with
                      | some err =>
                          dsimp only
                          rw [er_invokeConnect]
                          exact he
                      | none =>
                          dsimp only
                          rw [er_handShake]
                          exact he
              | false =>
                  simp only [hhs, Bool.false_eq_true, if_false]
                  unfold OnStReadDone
                  cases hc : ({ s with readOps := s.readOps.eraseIdx i } :
                      Flow τ).canceled.contains op.cap with
                  | true =>
                      simp only [hc, if_true]
                      exact he
                  | false =>
                      simp only [hc, Bool.false_eq_true, if_false]
                      cases e with
                      | some err =>
                          dsimp only
                          rcases reportError_char
                              { s with readOps := s.readOps.eraseIdx i } err true
                            with ⟨hr, hw, hrep⟩ | ⟨hid, hr, hrep⟩ |
                              ⟨hid, hw, hrep⟩ <;> rw [hrep]
                          exact he
                      | none =>
                          dsimp only
                          exact er_process TM _ he
  | completeWrite i e =>
      cases hop : s.writeOps.get? i with
      | none =>
          simp only [exec1, hop]
          exact he
      | some op =>
          simp only [exec1, hop]
          cases hhs : op.isHs with
          | true =>
              simp only [hhs, if_true]
              unfold OnHsWriteDone
              cases hc : ({ s with writeOps := s.writeOps.eraseIdx i } :
                  Flow τ).canceled.contains op.cap with
              | true =>
                  simp only [hc, if_true]
                  exact he
              | false =>
                  simp only [hc, Bool.false_eq_true, if_false]
                  cases e with
                  | some err =>
                      dsimp only
                      rw [er_invokeConnect]
                      exact he
                  | none =>
                      dsimp only
                      rw [er_handShake]
                      exact he
          | false =>
              simp only [hhs, Bool.false_eq_true, if_false]
              unfold OnStWriteDone
              cases hc : ({ s with writeOps := s.writeOps.eraseIdx i } :
                  Flow τ).canceled.contains op.cap with
              | true =>
                  simp only [hc, if_true]
                  exact he
              | false =>
                  simp only [hc, Bool.false_eq_true, if_false]
                  cases e with
                  | some err =>
                      dsimp only
                      rcases reportError_char
                          { s with writeOps := s.writeOps.eraseIdx i } err false
                        with ⟨hr, hw, hrep⟩ | ⟨hid, hr, hrep⟩ |
                          ⟨hid, hw, hrep⟩ <;> rw [hrep]
                      exact he
                  | none =>
                      dsimp only
                      exact er_process TM _ he

/-- The `error_reported_` latch is monotone along any action sequence. -/
theorem er_runFrom {τ : Type} (TM : TunnelModel τ) (acts : List Action)
    (s : Flow τ) (he : s.errorReported = true) :
    (runFrom TM s acts).errorReported = true := by
  induction acts generalizing s with
  | nil => exact he
  | cons a as ih => exact ih _ (er_exec1 TM a s he)

/-- Events appended by `ReportError` carry the error and the still-armed
slot. -/
theorem shape_reportError {τ : Type} (s : Flow τ) (err : ECode) (p : Bool) :
    ∀ e ∈ (ReportError s err p).2.events, e ∈ s.events ∨ shapeOK e := by
  rcases reportError_char s err p with ⟨hr, hw, hrep⟩ | ⟨hid, hr, hrep⟩ |
    ⟨hid, hw, hrep⟩ <;> rw [hrep] <;> intro e he
  · exact Or.inl he
  · have he2 : e ∈ s.events ++ [Ev.invRead hid [] (some err) (some hid)] := by
      simpa [readDelivered] using he
    rcases List.mem_append.mp he2 with h3 | h3
    · exact Or.inl h3
    · right
      have he3 : e = Ev.invRead hid [] (some err) (some hid) := by simpa using h3
      rw [he3]
      rfl
  · have he2 : e ∈ s.events ++ [Ev.invWrite hid (some err) (some hid)] := by
      simpa [writeDelivered] using he
    rcases List.mem_append.mp he2 with h3 | h3
    · exact Or.inl h3
    · right
      have he3 : e = Ev.invWrite hid (some err) (some hid) := by simpa using h3
      rw [he3]
      rfl

/-- Events appended by `invokeConnect` record the still-armed slot. -/
theorem shape_invokeConnect {τ : Type} (s : Flow τ) (err : Option ECode) :
    ∀ e ∈ (invokeConnect s err).events, e ∈ s.events ∨ shapeOK e := by
  rcases invokeConnect_char s err with ⟨h2, hch, h⟩ | ⟨hch, h⟩ <;> rw [h] <;>
    intro e he
  · rcases List.mem_append.mp he with h3 | h3
    · exact Or.inl h3
    · right
      have he3 : e = Ev.invConnect h2 err (some h2) := by simpa using h3
      rw [he3]
      rfl
  · rcases List.mem_append.mp he with h3 | h3
    · exact Or.inl h3
    · right
      have he3 : e = Ev.nullInvoke := by simpa using h3
      rw [he3]
      trivial

/-- Events appended by `HandShake` are connect invocations with the
still-armed slot. -/
theorem shape_handShake {τ : Type} (TM : TunnelModel τ) (s : Flow τ) :
    ∀ e ∈ (HandShake TM s).events, e ∈ s.events ∨ shapeOK e := by
  rcases handShake_char TM s with ⟨b, t1, h⟩ | ⟨t1, h⟩ | ⟨t1, h⟩ | ⟨t1, h⟩ <;>
    rw [h] <;> intro e he
  · exact Or.inl he
  · exact Or.inl he
  · have he2 : e ∈ (invokeConnect
        { s with tunnel := t1, sm := s.sm.connected } none).events := he
    rcases shape_invokeConnect
        { s with tunnel := t1, sm := s.sm.connected } none e he2 with h3 | h3
    · exact Or.inl h3
    · exact Or.inr h3
  · rcases shape_invokeConnect
        { s with tunnel := t1, sm := FlowState.Errored }
        (some generalError) e he with h3 | h3
    · exact Or.inl h3
    · exact Or.inr h3

/-- Events appended by a runloop turn are success deliveries with cleared
slots, or null invocations. -/
theorem shape_runTask {τ : Type} (s : Flow τ) :
    ∀ e ∈ (RunTask s).events, e ∈ s.events ∨ shapeOK e := by
  rcases runTask_char s with ⟨hp, h⟩ | ⟨b, cap, rest, hp, hcase⟩ |
    ⟨cap, rest, hp, hcase⟩
  · rw [h]
    exact fun e he => Or.inl he
  · rcases hcase with ⟨hc, h⟩ | ⟨hc, ⟨hid, hr, h⟩ | ⟨hr, h⟩⟩ <;> rw [h] <;>
      intro e he
    · exact Or.inl he
    · rcases List.mem_append.mp he with h3 | h3
      · exact Or.inl h3
      · right
        have he3 : e = Ev.invRead hid b none none := by simpa using h3
        rw [he3]
        rfl
    · rcases List.mem_append.mp he with h3 | h3
      · exact Or.inl h3
      · right
        have he3 : e = Ev.nullInvoke := by simpa using h3
        rw [he3]
        trivial
  · rcases hcase with ⟨hc, h⟩ | ⟨hc, ⟨hid, hw, h⟩ | ⟨hw, h⟩⟩ <;> rw [h] <;>
      intro e he
    · exact Or.inl he
    · rcases List.mem_append.mp he with h3 | h3
      · exact Or.inl h3
      · right
        have he3 : e = Ev.invWrite hid none none := by simpa using h3
        rw [he3]
        rfl
    · rcases List.mem_append.mp he with h3 | h3
      · exact Or.inl h3
      · right
        have he3 : e = Ev.nullInvoke := by simpa using h3
        rw [he3]
        trivial

/-- Events appended by `Process` are error deliveries from the slot. -/
theorem shape_process {τ : Type} (TM : TunnelModel τ) (s : Flow τ) :
    ∀ e ∈ (Process TM s).events, e ∈ s.events ∨ shapeOK e := by
  rcases process_char TM s with h | ⟨he2, hp, h⟩ | ⟨pe, hid, he2, hp, hr, h⟩ |
    ⟨pe, hid, he2, hp, hw, h⟩ <;> rw [h] <;> intro e he
  · exact Or.inl he
  · rw [tryWrite_events, tryRead_events] at he
    exact Or.inl he
  · have he2b : e ∈ s.events ++ [Ev.invRead hid [] (some pe) (some hid)] := by
      simpa [readDelivered] using he
    rcases List.mem_append.mp he2b with h3 | h3
    · exact Or.inl h3
    · right
      have he3 : e = Ev.invRead hid [] (some pe) (some hid) := by simpa using h3
      rw [he3]
      rfl
  · have he2b : e ∈ s.events ++ [Ev.invWrite hid (some pe) (some hid)] := by
      simpa [writeDelivered] using he
    rcases List.mem_append.mp he2b with h3 | h3
    · exact Or.inl h3
    · right
      have he3 : e = Ev.invWrite hid (some pe) (some hid) := by simpa using h3
      rw [he3]
      rfl

/-- Every event appended by a step satisfies the slot-clearing shape. -/
theorem shape_exec1 {τ : Type} (TM : TunnelModel τ) (a : Action) (s : Flow τ) :
    ∀ e ∈ (exec1 TM a s).events, e ∈ s.events ∨ shapeOK e := by
  cases a with
  | uConnect host =>
      by_cases hsm : s.sm = FlowState.Init
      · have hb : (s.sm == FlowState.Init) = true := by simp [hsm]
        simp only [exec1, hb, if_true]
        intro e he
        exact Or.inl he
      · have hb : (s.sm == FlowState.Init) = false := by simp [hsm]
        simp only [exec1, hb, Bool.false_eq_true, if_false]
        exact fun e he => Or.inl he
  | uRead =>
      cases hl : readLegal s with
      | false =>
          simp only [exec1, hl, Bool.false_eq_true, if_false]
          exact fun e he => Or.inl he
      | true =>
          simp only [exec1, hl, if_true]
          exact shape_process TM _
  | uWrite buf =>
      cases hl : writeLegal s with
      | false =>
          simp only [exec1, hl, Bool.false_eq_true, if_false]
          exact fun e he => Or.inl he
      | true =>
          simp only [exec1, hl, if_true]
          exact shape_process TM _
  | uCloseWrite => exact fun e he => Or.inl he
  | uCancel t => exact fun e he => Or.inl he
  | runTask => exact shape_runTask s
  | completeConnect e =>
      cases hop : s.connectOp with
      | none =>
          simp only [exec1, hop]
          exact fun e2 he => Or.inl he
      | some cap =>
          simp only [exec1, hop]
          unfold OnConnectDone
          cases hc : ({ s with connectOp := none } :
              Flow τ).canceled.contains cap with
          | true =>
              simp only [hc, if_true]
              exact fun e2 he => Or.inl he
          | false =>
              simp only [hc, Bool.false_eq_true, if_false]
              cases e with
              | some err =>
                  dsimp only
                  exact shape_invokeConnect _ (some err)
              | none =>
                  dsimp only
                  exact shape_handShake TM _
  | completeRead i b e =>
      cases hop : s.readOps.get? i with
      | none =>
          simp only [exec1, hop]
          exact fun e2 he => Or.inl he
      | some op =>
          simp only [exec1, hop]
          cases hguard : e.isNone && decide (op.size < b.length) with
          | true =>
              simp only [hguard, if_true]
              exact fun e2 he => Or.inl he
          | false =>
              simp only [hguard, Bool.false_eq_true, if_false]
              cases hhs : op.isHs with
              | true =>
                  simp only [hhs, if_true]
                  unfold OnHsReadDone
                  cases hc : ({ s with readOps := s.readOps.eraseIdx i } :
                      Flow τ).canceled.contains op.cap with
                  | true =>
                      simp only [hc, if_true]
                      exact fun e2 he => Or.inl he
                  | false =>
                      simp only [hc, Bool.false_eq_true, if_false]
                      cases e with
                      | some err =>
                          dsimp only
                          exact shape_invokeConnect _ (some err)
                      | none =>
                          dsimp only
                          exact shape_handShake TM _
              | false =>
                  simp only [hhs, Bool.false_eq_true, if_false]
                  unfold OnStReadDone
                  cases hc : ({ s with readOps := s.readOps.eraseIdx i } :
                      Flow τ).canceled.contains op.cap with
                  | true =>
                      simp only [hc, if_true]
                      exact fun e2 he => Or.inl he
                  | false =>
                      simp only [hc, Bool.false_eq_true, if_false]
                      cases e with
                      | some err =>
                          dsimp only
                          intro e2 he
                          rcases reportError_char
                              { s with readOps := s.readOps.eraseIdx i } err true
                            with ⟨hr, hw, hrep⟩ | ⟨hid, hr, hrep⟩ |
                              ⟨hid, hw, hrep⟩ <;> rw [hrep] at he <;>
                            dsimp only at he
                          · exact Or.inl he
                          · have he2 : e2 ∈ s.events ++
                                [Ev.invRead hid [] (some err) (some hid)] := by
                              simpa [readDelivered] using he
                            rcases List.mem_append.mp he2 with h3 | h3
                            · exact Or.inl h3
                            · right
                              have he3 : e2 =
                                  Ev.invRead hid [] (some err) (some hid) := by
                                simpa using h3
                              rw [he3]
                              rfl
                          · have he2 : e2 ∈ s.events ++
                                [Ev.invWrite hid (some err) (some hid)] := by
                              simpa [writeDelivered] using he
                            rcases List.mem_append.mp he2 with h3 | h3
                            · exact Or.inl h3
                            · right
                              have he3 : e2 =
                                  Ev.invWrite hid (some err) (some hid) := by
                                simpa using h3
                              rw [he3]
                              rfl
                      | none =>
                          dsimp only
                          exact shape_process TM _
  | completeWrite i e =>
      cases hop : s.writeOps.get? i with
      | none =>
          simp only [exec1, hop]
          exact fun e2 he => Or.inl he
      | some op =>
          simp only [exec1, hop]
          cases hhs : op.isHs with
          | true =>
              simp only [hhs, if_true]
              unfold OnHsWriteDone
              cases hc : ({ s with writeOps := s.writeOps.eraseIdx i } :
                  Flow τ).canceled.contains op.cap with
              | true =>
                  simp only [hc, if_true]
                  exact fun e2 he => Or.inl he
              | false =>
                  simp only [hc, Bool.false_eq_true, if_false]
                  cases e with
                  | some err =>
                      dsimp only
                      exact shape_invokeConnect _ (some err)
                  | none =>
                      dsimp only
                      exact shape_handShake TM _
          | false =>
              simp only [hhs, Bool.false_eq_true, if_false]
              unfold OnStWriteDone
              cases hc : ({ s with writeOps := s.writeOps.eraseIdx i } :
                  Flow τ).canceled.contains op.cap with
              | true =>
                  simp only [hc, if_true]
                  exact fun e2 he => Or.inl he
              | false =>
                  simp only [hc, Bool.false_eq_true, if_false]
                  cases e with
                  | some err =>
                      dsimp only
                      intro e2 he
                      rcases reportError_char
                          { s with writeOps := s.writeOps.eraseIdx i } err false
                        with ⟨hr, hw, hrep⟩ | ⟨hid, hr, hrep⟩ |
                          ⟨hid, hw, hrep⟩ <;> rw [hrep] at he <;>
                        dsimp only at he
                      · exact Or.inl he
                      · have he2 : e2 ∈ s.events ++
                            [Ev.invRead hid [] (some err) (some hid)] := by
                          simpa [readDelivered] using he
                        rcases List.mem_append.mp he2 with h3 | h3
                        · exact Or.inl h3
                        · right
                          have he3 : e2 =
                              Ev.invRead hid [] (some err) (some hid) := by
                            simpa using h3
                          rw [he3]
                          rfl
                      · have he2 : e2 ∈ s.events ++
                            [Ev.invWrite hid (some err) (some hid)] := by
                          simpa [writeDelivered] using he
                        rcases List.mem_append.mp he2 with h3 | h3
                        · exact Or.inl h3
                        · right
                          have he3 : e2 =
                              Ev.invWrite hid (some err) (some hid) := by
                            simpa using h3
                          rw [he3]
                          rfl
                  | none =>
                      dsimp only
                      exact shape_process TM _

/-- Along any action sequence, every recorded event satisfies the
slot-clearing shape. -/
theorem shape_runFrom {τ : Type} (TM : TunnelModel τ) (acts : List Action)
    (s : Flow τ) (hs : ∀ e ∈ s.events, shapeOK e) :
    ∀ e ∈ (runFrom TM s acts).events, shapeOK e := by
  induction acts generalizing s with
  | nil => exact hs
  | cons a as ih =>
      refine ih (exec1 TM a s) ?_
      intro e he
      rcases shape_exec1 TM a s e he with h | h
      · exact hs e h
      · exact h

/-- C1 (amended): across every interleaving of inner-flow completions, each
arming of a user read, write, or connect handler is invoked at most once;
cancellation suppresses delivery through the operation's own paths — a
posted delivery whose captured token is canceled runs without invoking
anything, and an inner completion whose captured token is canceled returns
with the flow untouched — but `ReportError` does not consult the
cancelables, so a canceled operation's handler may still receive one error
delivery. -/
theorem c1_amended {τ : Type} (TM : TunnelModel τ) (t : τ)
    (acts : List Action) :
    (∀ i, countRead i (run TM t acts).events ≤ 1 ∧
      countWrite i (run TM t acts).events ≤ 1) ∧
    countConnect (run TM t acts).events ≤ 1 ∧
    (∀ (s : Flow τ) b cap rest, s.posted = Task.readDelivery b cap :: rest →
      s.canceled.contains cap = true → RunTask s = { s with posted := rest }) ∧
    (∀ (s : Flow τ) cap rest, s.posted = Task.writeDelivery cap :: rest →
      s.canceled.contains cap = true → RunTask s = { s with posted := rest }) ∧
    (∀ (s : Flow τ) cap b e, s.canceled.contains cap = true →
      OnStReadDone TM cap b e s = s ∧ OnStWriteDone TM cap e s = s ∧
      OnHsReadDone TM cap b e s = s ∧ OnHsWriteDone TM cap e s = s ∧
      OnConnectDone TM cap e s = s) := by
  refine ⟨?_, (good_run TM t acts).connCount, ?_, ?_, ?_⟩
  · intro i
    exact ⟨(good_run TM t acts).countReadLe i,
      (good_run TM t acts).countWriteLe i⟩
  · intro s b cap rest hp hc
    have hc2 : cap ∈ s.canceled := by simpa using hc
    simp [RunTask, hp, hc2]
  · intro s cap rest hp hc
    have hc2 : cap ∈ s.canceled := by simpa using hc
    simp [RunTask, hp, hc2]
  · intro s cap b e hc
    have hc2 : cap ∈ s.canceled := by simpa using hc
    exact ⟨by simp [OnStReadDone, hc2], by simp [OnStWriteDone, hc2],
      by simp [OnHsReadDone, hc2], by simp [OnHsWriteDone, hc2],
      by simp [OnConnectDone, hc2]⟩

/-- Witness for `c1_amended`: the at-most-once bound on a concrete trace, a
canceled posted delivery that invokes nothing, and a canceled completion
that leaves the flow untouched. -/
theorem c1_amended_witness :
    countRead 8 (run unitTM () cexActs3).events ≤ 1 ∧
    countWrite 8 (run unitTM () cexActs3).events ≤ 1 ∧
    countConnect (run unitTM () cexActs3).events ≤ 1 ∧
    RunTask wfT = { wfT with posted := [Task.writeDelivery 1] } ∧
    OnStReadDone unitTM 0 [] none wfC = wfC :=
  ⟨((c1_amended unitTM () cexActs3).1 8).1,
   ((c1_amended unitTM () cexActs3).1 8).2,
   (c1_amended unitTM () cexActs3).2.1,
   (c1_amended unitTM () cexActs3).2.2.1 wfT [7] 0 [Task.writeDelivery 1]
     (by decide) (by decide),
   ((c1_amended unitTM () cexActs3).2.2.2.2 wfC 0 [] none (by decide)).1⟩

/-- C3 (amended): `error_reported` latches — once set it stays set along
every continuation of every run — and once it is set, `Process` is inert:
it invokes no handler and leaves the state unchanged. -/
theorem c3_amended {τ : Type} (TM : TunnelModel τ) (s : Flow τ) :
    (∀ acts, s.errorReported = true →
      (runFrom TM s acts).errorReported = true) ∧
    (s.errorReported = true → Process TM s = s) := by
  constructor
  · intro acts he
    exact er_runFrom TM acts s he
  · intro he
    simp [Process, he]

/-- Witness for `c3_amended` at a concrete latched state. -/
theorem c3_amended_witness :
    (runFrom unitTM wfE [Action.uRead, Action.runTask]).errorReported = true ∧
    Process unitTM wfE = wfE :=
  ⟨(c3_amended unitTM wfE).1 [Action.uRead, Action.runTask] (by decide),
   (c3_amended unitTM wfE).2 (by decide)⟩

/-- C4 (amended): successful user read/write deliveries (which go through
the runloop `Post`) have their handler slot cleared at the moment of the
call; error deliveries via `ReadReportError`/`WriteReportError`, and every
connect-handler invocation in the handshake driver, invoke the handler
while the slot still holds it. -/
theorem c4_amended {τ : Type} (TM : TunnelModel τ) (t : τ)
    (acts : List Action) :
    ∀ e ∈ (run TM t acts).events,
      (∀ h b sl, e = Ev.invRead h b none sl → sl = none) ∧
      (∀ h sl, e = Ev.invWrite h none sl → sl = none) ∧
      (∀ h b err sl, e = Ev.invRead h b (some err) sl → sl = some h) ∧
      (∀ h err sl, e = Ev.invWrite h (some err) sl → sl = some h) ∧
      (∀ h err sl, e = Ev.invConnect h err sl → sl = some h) := by
  intro e he
  have hs : shapeOK e :=
    shape_runFrom TM acts (init t)
      (fun e2 he2 => absurd he2 (List.not_mem_nil e2)) e he
  refine ⟨?_, ?_, ?_, ?_, ?_⟩
  · intro h2 b sl heq
    rw [heq] at hs
    exact hs
  · intro h2 sl heq
    rw [heq] at hs
    exact hs
  · intro h2 b err sl heq
    rw [heq] at hs
    exact hs
  · intro h2 err sl heq
    rw [heq] at hs
    exact hs
  · intro h2 err sl heq
    rw [heq] at hs
    exact hs

/-- Witness for `c4_amended`: a posted success delivery on a concrete trace
has its slot cleared at invocation time. -/
theorem c4_amended_witness :
    Ev.invRead 8 [1] none none ∈ (run listTM [] cexActs7).events ∧
    (none : Option Nat) = none :=
  ⟨by decide,
   (c4_amended listTM [] cexActs7 (Ev.invRead 8 [1] none none) (by decide)).1
     8 [1] none rfl⟩

/-- C8: at every reachable instant there is at most one outstanding inner
read and at most one outstanding inner write on the next-hop flow, and the
steady-state issue paths consult the inner state machine first:
`TryReadNextHop` (resp. `TryWriteNextHop`) does nothing when an inner
operation of that kind is already in flight. -/
theorem c8_single_inflight {τ : Type} (TM : TunnelModel τ) (t : τ)
    (acts : List Action) (s : Flow τ) :
    (run TM t acts).readOps.length ≤ 1 ∧
    (run TM t acts).writeOps.length ≤ 1 ∧
    (s.readOps.isEmpty = false → TryReadNextHop s = s) ∧
    (s.writeOps.isEmpty = false → TryWriteNextHop TM s = s) := by
  refine ⟨(good_run TM t acts).readsLe, (good_run TM t acts).writesLe, ?_, ?_⟩
  · intro hne
    simp [TryReadNextHop, hne]
  · intro hne
    simp [TryWriteNextHop, hne]

/-- Witness for `c8_single_inflight` on a concrete trace and concrete
busy states. -/
theorem c8_single_inflight_witness :
    (run unitTM () cexActs1).readOps.length ≤ 1 ∧
    (run unitTM () cexActs1).writeOps.length ≤ 1 ∧
    TryReadNextHop wfO = wfO ∧
    TryWriteNextHop unitTM wfW = wfW :=
  ⟨(c8_single_inflight unitTM () cexActs1 wfO).1,
   (c8_single_inflight unitTM () cexActs1 wfO).2.1,
   (c8_single_inflight unitTM () cexActs1 wfO).2.2.1 (by decide),
   (c8_single_inflight unitTM () cexActs1 wfW).2.2.2 (by decide)⟩

end TlsFlow
